import Mathlib

/-!
Verification of the AMF3 decoder core of rust-flash-lso
(src/flash-lso/src/amf3/read.rs, with the value model of
src/flash-lso/src/types.rs).

Shallow embedding conventions:
  * Byte strings are `List Nat` (each entry the value of one `u8`).
  * Rust `String` values are the UTF-8 byte lists they were decoded from;
    `String::from_utf8` is the `utf8_valid` check (decode fails on invalid
    input, the bytes are kept unchanged on success).
  * `f64` values are kept as their raw 8 big-endian bytes assembled into a
    `Nat` (the decoder never computes with doubles, it only stores them).
  * `u32`/`i32`/`usize` arithmetic is modelled on `Nat`/`Int`; every
    intermediate value in the translated code is below `2^30`, so machine
    wrap-around never occurs and the model is exact.
  * `Rc<Value>` handles are modelled by storing, next to each object-table
    slot, the number of live `Rc` clones of that slot's handle that were
    handed out since the slot was created (`Slot.clones`).  Every clone the
    decoder creates is stored into a value that is still alive when the
    slot is patched, so `Rc::get_mut` on a slot succeeds exactly when this
    count is zero; the `.expect(..)` calls of the source on a failed
    `Rc::get_mut` are modelled by the `PR.panic` outcome.
  * `nom`'s `Err::Error` results are the `PR.err` outcome; the error kind
    is not modelled.  The decoder state is threaded through errors, as in
    the source (`&mut self` mutations persist when `?` propagates).
-/

namespace FlashLso

/-- Attribute set of a trait: Rust `EnumSet<Attribute>` over the variants
`Dynamic` and `External` of `types.rs`. -/
structure Attrs where
  attrDynamic : Bool
  attrExternal : Bool
deriving DecidableEq, Repr

/-- `ClassDefinition` of types.rs: a trait with a name, attribute set and
ordered static-property names. -/
structure ClassDefinition where
  name : List Nat
  attributes : Attrs
  static_properties : List (List Nat)
deriving DecidableEq, Repr

/-- The `Value` enum of types.rs.  `Number`, `Date` and the elements of
`VectorDouble` carry the raw 64-bit big-endian pattern of the `f64`;
`Element` fields are inlined as (name, value) pairs. -/
inductive Value where
  | Number (bits : Nat)
  | Bool (b : Bool)
  | String (s : List Nat)
  | Object (elements : List (List Nat × Value)) (classDef : Option ClassDefinition)
  | Null
  | Undefined
  | ECMAArray (dense : List Value) (assoc : List (List Nat × Value)) (len : Nat)
  | StrictArray (items : List Value)
  | Date (bits : Nat) (tz : Option Nat)
  | Unsupported
  | XML (s : List Nat) (isString : Bool)
  | AMF3 (v : Value)
  | Integer (n : Int)
  | ByteArray (bytes : List Nat)
  | VectorInt (items : List Int) (fixed : Bool)
  | VectorUInt (items : List Nat) (fixed : Bool)
  | VectorDouble (items : List Nat) (fixed : Bool)
  | VectorObject (items : List Value) (typeName : List Nat) (fixed : Bool)
  | Dictionary (pairs : List (Value × Value)) (weak : Bool)
  | Custom (customElems : List (List Nat × Value)) (regularElems : List (List Nat × Value))
      (classDef : Option ClassDefinition)

/-- `Element` of types.rs: a named value. -/
abbrev Element := List Nat × Value

/-- `Length` of amf3/length.rs: the length-or-reference discriminator. -/
inductive Length where
  | Size (n : Nat)
  | Reference (idx : Nat)
deriving DecidableEq, Repr

/-- One entry of the object reference table: the slot's current value
together with the number of live `Rc` clones of the slot's handle. -/
structure Slot where
  val : Value
  clones : Nat

/-- The state of `AMF3Decoder` (read.rs).  The `external_decoders` registry
is passed separately to the parse functions (a function-typed field would
make the state type recursive); the decoder never mutates the registry.
`inlineCount` is a ghost counter: it is incremented exactly when a
length-discriminated complex value takes its inline (`Size`) branch, and is
used to state the object-table growth invariant. -/
structure AMF3Decoder where
  string_reference_table : List (List Nat)
  trait_reference_table : List ClassDefinition
  object_reference_table : List Slot
  inlineCount : Nat

/-- The empty decoder (`AMF3Decoder::default()`). -/
def emptyDecoder : AMF3Decoder := ⟨[], [], [], 0⟩

/-- Outcome of one parse step: success with the new state, remaining input
and result; a `nom` error with the state at the error; or a Rust panic. -/
inductive PR (α : Type) where
  | ok (st : AMF3Decoder) (rest : List Nat) (a : α)
  | err (st : AMF3Decoder)
  | panic

/-- A parse computation: state and remaining input to an outcome. -/
def PRm (α : Type) := AMF3Decoder → List Nat → PR α

instance : Monad PRm where
  pure a := fun st i => PR.ok st i a
  bind m f := fun st i =>
    match m st i with
    | PR.ok st i a => f a st i
    | PR.err st => PR.err st
    | PR.panic => PR.panic

/-- Fail with a `nom` error. -/
def pfail {α : Type} : PRm α := fun st _ => PR.err st

/-- `nom::number::complete::be_u8`. -/
def be_u8 : PRm Nat := fun st i =>
  match i with
  | [] => PR.err st
  | b :: r => PR.ok st r b

/-- Read `n` bytes big-endian into a single `Nat`. -/
def beBytes : Nat → PRm Nat
  | 0 => pure 0
  | k + 1 => do
      let hi ← be_u8
      let lo ← beBytes k
      pure (hi * 2 ^ (8 * k) + lo)

/-- `be_u32`. -/
def be_u32 : PRm Nat := beBytes 4

/-- `be_i32` (two's-complement reading of the 4 bytes). -/
def be_i32 : PRm Int := do
  let v ← beBytes 4
  pure (if v < 2 ^ 31 then (v : Int) else (v : Int) - 2 ^ 32)

/-- `be_f64`, kept as the raw 64-bit big-endian pattern. -/
def be_f64 : PRm Nat := beBytes 8

/-- `nom`'s `take!(len)`: exactly `len` bytes or an error. -/
def takeBytes (n : Nat) : PRm (List Nat) := fun st i =>
  if n ≤ i.length then PR.ok st (i.drop n) (i.take n) else PR.err st

/-- `nom`'s `tag(t)`. -/
def tagBytes (t : List Nat) : PRm Unit := fun st i =>
  if t = i.take t.length then PR.ok st (i.drop t.length) () else PR.err st

/-- A UTF-8 continuation byte. -/
def utf8_cont (b : Nat) : Bool := 0x80 ≤ b && b ≤ 0xBF

/-- The UTF-8 validity check performed by `String::from_utf8`
(RFC 3629 table, as implemented by Rust's standard library). -/
def utf8_valid : List Nat → Bool
  | [] => true
  | b :: rest =>
    if b ≤ 0x7F then utf8_valid rest
    else if 0xC2 ≤ b && b ≤ 0xDF then
      match rest with
      | c1 :: r => utf8_cont c1 && utf8_valid r
      | _ => false
    else if b = 0xE0 then
      match rest with
      | c1 :: c2 :: r => (0xA0 ≤ c1 && c1 ≤ 0xBF) && utf8_cont c2 && utf8_valid r
      | _ => false
    else if (0xE1 ≤ b && b ≤ 0xEC) || b = 0xEE || b = 0xEF then
      match rest with
      | c1 :: c2 :: r => utf8_cont c1 && utf8_cont c2 && utf8_valid r
      | _ => false
    else if b = 0xED then
      match rest with
      | c1 :: c2 :: r => (0x80 ≤ c1 && c1 ≤ 0x9F) && utf8_cont c2 && utf8_valid r
      | _ => false
    else if b = 0xF0 then
      match rest with
      | c1 :: c2 :: c3 :: r => (0x90 ≤ c1 && c1 ≤ 0xBF) && utf8_cont c2 && utf8_cont c3 && utf8_valid r
      | _ => false
    else if 0xF1 ≤ b && b ≤ 0xF3 then
      match rest with
      | c1 :: c2 :: c3 :: r => utf8_cont c1 && utf8_cont c2 && utf8_cont c3 && utf8_valid r
      | _ => false
    else if b = 0xF4 then
      match rest with
      | c1 :: c2 :: c3 :: r => (0x80 ≤ c1 && c1 ≤ 0x8F) && utf8_cont c2 && utf8_cont c3 && utf8_valid r
      | _ => false
    else false

/-- `REFERENCE_FLAG` of read.rs. -/
def REFERENCE_FLAG : Nat := 0x01

/-- The bounded byte walk shared verbatim by `read_int` and
`read_int_signed` of read.rs: starting from the first byte `v0`, run
`while v & 0x80 != 0 && n < 3 { result <<= 7; result |= v & 0x7f; n += 1;
v = next byte }`, unrolled (the loop runs at most three times).  Returns
the remaining input, the accumulated `result`, the last byte read, and the
final `n`. -/
def u29walk (v0 : Nat) (i : List Nat) : Option (List Nat × Nat × Nat × Nat) :=
  if v0 &&& 0x80 = 0 then some (i, 0, v0, 0) else
  match i with
  | [] => none
  | v1 :: i1 =>
    let r1 : Nat := (0 <<< 7) ||| (v0 &&& 0x7F)
    if v1 &&& 0x80 = 0 then some (i1, r1, v1, 1) else
    match i1 with
    | [] => none
    | v2 :: i2 =>
      let r2 : Nat := (r1 <<< 7) ||| (v1 &&& 0x7F)
      if v2 &&& 0x80 = 0 then some (i2, r2, v2, 2) else
      match i2 with
      | [] => none
      | v3 :: i3 =>
        let r3 : Nat := (r2 <<< 7) ||| (v2 &&& 0x7F)
        some (i3, r3, v3, 3)

/-- `read_int` of read.rs (unsigned U29 decoder, including the final
shift-left-and-add-one step the source applies on the four-byte path when
bit `0x10000000` of the assembled value is set). -/
def read_int (i : List Nat) : Option (List Nat × Nat) :=
  match i with
  | [] => none
  | v :: i =>
    match u29walk v i with
    | none => none
    | some (i, result, v, n) =>
      if n < 3 then some (i, (result <<< 7) ||| v)
      else
        let r : Nat := (result <<< 8) ||| v
        if r &&& 0x10000000 ≠ 0 then some (i, (r <<< 1) + 1) else some (i, r)

/-- `read_int_signed` of read.rs (signed I29 decoder; on the four-byte path
it subtracts `0x20000000` when bit `0x10000000` is set).  The `i32`
arithmetic of the source stays strictly inside `[-2^29, 2^29)`, so `Int`
models it exactly. -/
def read_int_signed (i : List Nat) : Option (List Nat × Int) :=
  match i with
  | [] => none
  | v :: i =>
    match u29walk v i with
    | none => none
    | some (i, result, v, n) =>
      if n < 3 then some (i, ((result <<< 7) ||| v : Nat))
      else
        let r : Nat := (result <<< 8) ||| v
        if r &&& 0x10000000 ≠ 0 then some (i, (r : Int) - 0x20000000)
        else some (i, (r : Int))

/-- `read_length` of read.rs. -/
def read_length (i : List Nat) : Option (List Nat × Length) :=
  match read_int i with
  | none => none
  | some (i, val) =>
    some (i, if val &&& REFERENCE_FLAG = 0 then Length.Reference (val >>> 1)
             else Length.Size (val >>> 1))

/-- Monadic lift of `read_int`. -/
def read_intP : PRm Nat := fun st i =>
  match read_int i with
  | none => PR.err st
  | some (i, v) => PR.ok st i v

/-- Monadic lift of `read_int_signed`. -/
def read_int_signedP : PRm Int := fun st i =>
  match read_int_signed i with
  | none => PR.err st
  | some (i, v) => PR.ok st i v

/-- Monadic lift of `read_length`. -/
def read_lengthP : PRm Length := fun st i =>
  match read_length i with
  | none => PR.err st
  | some (i, l) => PR.ok st i l

/-- `parse_element_int` of read.rs. -/
def parse_element_int : PRm Value := do
  let s ← read_int_signedP
  pure (Value.Integer s)

/-- `parse_element_number` of read.rs. -/
def parse_element_number : PRm Value := do
  let v ← be_f64
  pure (Value.Number v)

/-- `parse_byte_stream` of read.rs: length-or-reference, interning inline
non-empty byte runs in the string reference table. -/
def parse_byte_stream : PRm (List Nat) := fun st i =>
  match read_length i with
  | none => PR.err st
  | some (i, Length.Size len) =>
    if len = 0 then PR.ok st i []
    else
      match takeBytes len st i with
      | PR.ok st i bytes =>
        PR.ok { st with string_reference_table := st.string_reference_table ++ [bytes] } i bytes
      | PR.err st => PR.err st
      | PR.panic => PR.panic
  | some (i, Length.Reference index) =>
    match st.string_reference_table[index]? with
    | none => PR.err st
    | some bytes => PR.ok st i bytes

/-- `parse_string` of read.rs: a byte stream that must be valid UTF-8. -/
def parse_string : PRm (List Nat) := do
  let bytes ← parse_byte_stream
  if utf8_valid bytes then pure bytes else pfail

/-- `parse_element_string` of read.rs. -/
def parse_element_string : PRm Value := do
  let s ← parse_string
  pure (Value.String s)

/-- `self.trait_reference_table.push(class_def.clone())` of read.rs. -/
def pushTrait (class_def : ClassDefinition) : PRm Unit := fun st i =>
  PR.ok { st with trait_reference_table := st.trait_reference_table ++ [class_def] } i ()

/-- `many_m_n(n, n, p)`: exactly `n` repetitions of `p`. -/
def manyN {α : Type} : Nat → PRm α → PRm (List α)
  | 0, _ => pure []
  | k + 1, p => do
      let x ← p
      let xs ← manyN k p
      pure (x :: xs)

/-- `parse_class_def` of read.rs: trait reference, or inline trait with
packed encoding bits and static-property names, interned in the trait
reference table. -/
def parse_class_def (length : Nat) : PRm ClassDefinition := fun st i =>
  if length &&& REFERENCE_FLAG = 0 then
    match st.trait_reference_table[length >>> 1]? with
    | none => PR.err st
    | some cd => PR.ok st i cd
  else
    (do
      let length2 := length >>> 1
      let name ← parse_byte_stream
      let name_str ← (if name = [] then pure ([] : List Nat)
                      else if utf8_valid name then pure name else pfail)
      let encoding := length2 &&& 0x03
      let attributes_count := length2 >>> 2
      let static_props ← manyN attributes_count parse_string
      let is_external := encoding &&& 0b1 == 1
      let is_dynamic := encoding &&& 0b10 == 0b10
      let class_def : ClassDefinition := ⟨name_str, ⟨is_dynamic, is_external⟩, static_props⟩
      pushTrait class_def
      pure class_def) st i

/-- Increment the live-clone count of object-table entry `idx`
(an `Rc::clone` of the stored handle). -/
def bumpClone (t : List Slot) (idx : Nat) : List Slot :=
  match t[idx]? with
  | none => t
  | some s => t.set idx ⟨s.val, s.clones + 1⟩

/-- `parse_reference_or_val` of read.rs: reference lookup, or
reserve-slot / run payload parser / patch-slot.  The patch uses
`Rc::get_mut(..).expect("Reference still held to rc")`, which panics
whenever a clone of the reserved slot's handle is still alive — i.e.
whenever the payload contained a back-reference to the slot itself. -/
def parse_reference_or_val (parser : Nat → PRm Value) : PRm Value := fun st i =>
  match read_length i with
  | none => PR.err st
  | some (i, Length.Reference index) =>
    match st.object_reference_table[index]? with
    | none => PR.err st
    | some slot =>
      PR.ok { st with object_reference_table := bumpClone st.object_reference_table index } i slot.val
  | some (i, Length.Size len) =>
    let index := st.object_reference_table.length
    let st := { st with
      object_reference_table := st.object_reference_table ++ [⟨Value.Null, 0⟩],
      inlineCount := st.inlineCount + 1 }
    match parser len st i with
    | PR.err st => PR.err st
    | PR.panic => PR.panic
    | PR.ok st i res =>
      match st.object_reference_table[index]? with
      | none => PR.panic
      | some slot =>
        if slot.clones ≠ 0 then PR.panic
        else
          let st := { st with object_reference_table := st.object_reference_table.set index ⟨res, 0⟩ }
          PR.ok { st with object_reference_table := bumpClone st.object_reference_table index } i res

/-- `parse_element_byte_array` of read.rs. -/
def parse_element_byte_array : PRm Value :=
  parse_reference_or_val (fun len => do
    let bytes ← takeBytes len
    pure (Value.ByteArray bytes))

/-- The pre-allocation guard `if i.len() < bound { return Err }` used by the
vector, array and dictionary decoders of read.rs. -/
def oversizeGuard (bound : Nat) : PRm Unit := fun st i =>
  if i.length < bound then PR.err st else PR.ok st i ()

/-- `parse_element_vector_int` of read.rs. -/
def parse_element_vector_int : PRm Value :=
  parse_reference_or_val (fun len => do
    oversizeGuard (len * 4)
    let fixed_length ← be_u8
    let ints ← manyN len be_i32
    pure (Value.VectorInt ints (fixed_length == 1)))

/-- `parse_element_vector_uint` of read.rs. -/
def parse_element_vector_uint : PRm Value :=
  parse_reference_or_val (fun len => do
    oversizeGuard (len * 4)
    let fixed_length ← be_u8
    let ints ← manyN len be_u32
    pure (Value.VectorUInt ints (fixed_length == 1)))

/-- `parse_element_vector_double` of read.rs: the oversize guard
`i.len() < len * 8` runs before the fixed-flag byte or any element is
read. -/
def parse_element_vector_double : PRm Value :=
  parse_reference_or_val (fun len => do
    oversizeGuard (len * 8)
    let fixed_length ← be_u8
    let numbers ← manyN len be_f64
    pure (Value.VectorDouble numbers (fixed_length == 1)))

/-- `parse_element_object_vector` of read.rs; `pse` is
`parse_single_element` at the enclosing recursion depth. -/
def parse_element_object_vector (pse : PRm Value) : PRm Value :=
  parse_reference_or_val (fun len => do
    let fixed_length ← be_u8
    let object_type_name ← parse_string
    let elems ← manyN len pse
    pure (Value.VectorObject elems object_type_name (fixed_length == 1)))

/-- The associative loop of `parse_element_array` of read.rs: while the
current key is non-empty, parse one element, validate the key as UTF-8,
append the pair, read the next key.  `fuel` bounds the iterations. -/
def arrayAssocLoop (pse : PRm Value) : Nat → List Nat → PRm (List Element)
  | 0, _ => pfail
  | fuel + 1, key =>
    if key = [] then pure []
    else do
      let e ← pse
      let key_str ← (if utf8_valid key then pure key else pfail)
      let k ← parse_byte_stream
      let rest ← arrayAssocLoop pse fuel k
      pure ((key_str, e) :: rest)

/-- The payload closure of `parse_element_array` of read.rs: guard, first
key, then either a dense `StrictArray` (empty first key) or the
associative loop followed by the dense part, an `ECMAArray` whose third
field is the length of the associative part. -/
def parse_element_array_body (pse : PRm Value) (fuel : Nat) (length_usize : Nat) : PRm Value := do
  oversizeGuard length_usize
  let key ← parse_byte_stream
  if key = [] then do
    let elements ← manyN length_usize pse
    pure (Value.StrictArray elements)
  else do
    let elements ← arrayAssocLoop pse fuel key
    let el ← manyN length_usize pse
    pure (Value.ECMAArray el elements elements.length)

/-- `parse_element_array` of read.rs. -/
def parse_element_array (pse : PRm Value) (fuel : Nat) : PRm Value :=
  parse_reference_or_val (parse_element_array_body pse fuel)

/-- `chunks_exact(2)` pairing of `parse_element_dict`. -/
def chunkPairs : List Value → List (Value × Value)
  | a :: b :: r => (a, b) :: chunkPairs r
  | _ => []

/-- `parse_element_dict` of read.rs. -/
def parse_element_dict (pse : PRm Value) : PRm Value :=
  parse_reference_or_val (fun len => do
    let weak_keys ← be_u8
    oversizeGuard (len * 2)
    let pairs ← manyN (len * 2) pse
    pure (Value.Dictionary (chunkPairs pairs) (weak_keys == 1)))

/-- `parse_element_date` of read.rs (the size is ignored). -/
def parse_element_date : PRm Value :=
  parse_reference_or_val (fun _len => do
    let ms ← be_f64
    pure (Value.Date ms none))

/-- `parse_element_xml` of read.rs (`take_str!` validates UTF-8). -/
def parse_element_xml (string : Bool) : PRm Value :=
  parse_reference_or_val (fun len => do
    let bytes ← takeBytes len
    let data ← (if utf8_valid bytes then pure bytes else pfail)
    pure (Value.XML data string))

/-- The static-property loop of `parse_object_static` of read.rs. -/
def parse_object_static_loop (pse : PRm Value) : List (List Nat) → PRm (List Element)
  | [] => pure []
  | name :: names => do
      let e ← pse
      let rest ← parse_object_static_loop pse names
      pure ((name, e) :: rest)

/-- `parse_object_static` of read.rs. -/
def parse_object_static (pse : PRm Value) (class_def : ClassDefinition) : PRm (List Element) :=
  parse_object_static_loop pse class_def.static_properties

/-- The dynamic-member loop of `parse_element_object` of read.rs: while the
attribute name is non-empty, validate it as UTF-8, parse one element,
read the next attribute name. -/
def objectDynamicLoop (pse : PRm Value) : Nat → List Nat → PRm (List Element)
  | 0, _ => pfail
  | fuel + 1, attr =>
    if attr = [] then pure []
    else do
      let attr_str ← (if utf8_valid attr then pure attr else pfail)
      let val ← pse
      let attr2 ← parse_byte_stream
      let rest ← objectDynamicLoop pse fuel attr2
      pure ((attr_str, val) :: rest)

/-- The first patch block of `parse_element_object`: `Rc::get_mut` on the
reserved slot (`none` result = panic), then `if let Value::Object(_, def)`
sets the class definition. -/
def patchClassDef (st : AMF3Decoder) (index : Nat) (cd : ClassDefinition) : Option AMF3Decoder :=
  match st.object_reference_table[index]? with
  | none => none
  | some slot =>
    if slot.clones ≠ 0 then none
    else
      match slot.val with
      | Value.Object elems _ =>
        some { st with object_reference_table :=
          st.object_reference_table.set index ⟨Value.Object elems (some cd), 0⟩ }
      | _ => some st

/-- The second patch block of `parse_element_object`: `Rc::get_mut` on the
reserved slot, then `if let Value::Object(elements, _)` sets the element
list. -/
def patchElements (st : AMF3Decoder) (index : Nat) (elements : List Element) : Option AMF3Decoder :=
  match st.object_reference_table[index]? with
  | none => none
  | some slot =>
    if slot.clones ≠ 0 then none
    else
      match slot.val with
      | Value.Object _ d =>
        some { st with object_reference_table :=
          st.object_reference_table.set index ⟨Value.Object elements d, 0⟩ }
      | _ => some st

/-- Type of a registered external decoder (`ExternalDecoderFn`): it gets
the decoder state and cursor and yields named elements. -/
abbrev ExternalFn := AMF3Decoder → List Nat → PR (List Element)

/-- The `external_decoders` registry, as an association list keyed by the
class name. -/
abbrev Registry := List (List Nat × ExternalFn)

/-- `HashMap` lookup in the registry. -/
def lookupFn : Registry → List Nat → Option ExternalFn
  | [], _ => none
  | (k, f) :: r, n => if k = n then some f else lookupFn r n

/-- The sealed/dynamic element computation of `parse_element_object` of
read.rs: the `if dynamic` block (static properties, then the dynamic
member loop) followed by the `if attributes.is_empty()` block (static
properties only). -/
def parse_element_object_elems (pse : PRm Value) (fuel : Nat) (class_def : ClassDefinition) :
    PRm (List Element) := do
  let pre ← (if class_def.attributes.attrDynamic then do
        let x ← parse_object_static pse class_def
        let attr ← parse_byte_stream
        let dyns ← objectDynamicLoop pse fuel attr
        pure (x ++ dyns)
      else pure [])
  let post ← (if class_def.attributes.attrDynamic = false &&
                 class_def.attributes.attrExternal = false then
        parse_object_static pse class_def
      else pure ([] : List Element))
  pure (pre ++ post)

/-- `parse_element_object` of read.rs: object reference, or reserve a slot
holding `Object([], None)`, parse the trait, patch the class definition in,
then branch on the trait attributes (external / dynamic / sealed).  The
external branch returns a fresh `Rc::new(Value::Custom(..))` and performs
no second patch; the other branches patch the element list into the slot
and return a clone of the slot's handle. -/
def parse_element_object (reg : Registry) (pse : PRm Value) (fuel : Nat) : PRm Value := fun st i =>
  match read_int i with
  | none => PR.err st
  | some (i, length) =>
    if length &&& REFERENCE_FLAG = 0 then
      match st.object_reference_table[length >>> 1]? with
      | none => PR.err st
      | some slot =>
        PR.ok { st with object_reference_table := bumpClone st.object_reference_table (length >>> 1) }
          i slot.val
    else
      let length2 := length >>> 1
      let index := st.object_reference_table.length
      let st := { st with
        object_reference_table := st.object_reference_table ++ [⟨Value.Object [] none, 0⟩],
        inlineCount := st.inlineCount + 1 }
      match parse_class_def length2 st i with
      | PR.err st => PR.err st
      | PR.panic => PR.panic
      | PR.ok st i class_def =>
        match patchClassDef st index class_def with
        | none => PR.panic
        | some st =>
          if class_def.attributes.attrExternal then
            match lookupFn reg class_def.name with
            | some decoder =>
              match decoder st i with
              | PR.err st => PR.err st
              | PR.panic => PR.panic
              | PR.ok st i external_elements =>
                PR.ok st i (Value.Custom external_elements [] (some class_def))
            | none => PR.err st
          else
            match parse_element_object_elems pse fuel class_def st i with
            | PR.err st => PR.err st
            | PR.panic => PR.panic
            | PR.ok st i elements =>
              match patchElements st index elements with
              | none => PR.panic
              | some st =>
                match st.object_reference_table[index]? with
                | none => PR.panic
                | some slot =>
                  PR.ok { st with object_reference_table := bumpClone st.object_reference_table index }
                    i slot.val

/-- Modelled from the spec: the `TypeMarker` enum of amf3/type_marker.rs is
not under src/; its byte values are the canonical AMF3 marker table of
spec section 4.9. -/
inductive TypeMarker where
  | Undefined | Null | False | True | Integer | Number | String | XML | Date
  | Array | Object | XmlString | ByteArray | VectorInt | VectorUInt
  | VectorDouble | VectorObject | Dictionary
deriving DecidableEq, Repr

/-- Modelled from the spec: `TypeMarker::try_from(u8)` per the marker
table of spec section 4.9 (any other byte is a decode error). -/
def typeMarkerOfByte (b : Nat) : Option TypeMarker :=
  if b = 0x00 then some TypeMarker.Undefined
  else if b = 0x01 then some TypeMarker.Null
  else if b = 0x02 then some TypeMarker.False
  else if b = 0x03 then some TypeMarker.True
  else if b = 0x04 then some TypeMarker.Integer
  else if b = 0x05 then some TypeMarker.Number
  else if b = 0x06 then some TypeMarker.String
  else if b = 0x07 then some TypeMarker.XML
  else if b = 0x08 then some TypeMarker.Date
  else if b = 0x09 then some TypeMarker.Array
  else if b = 0x0A then some TypeMarker.Object
  else if b = 0x0B then some TypeMarker.XmlString
  else if b = 0x0C then some TypeMarker.ByteArray
  else if b = 0x0D then some TypeMarker.VectorInt
  else if b = 0x0E then some TypeMarker.VectorUInt
  else if b = 0x0F then some TypeMarker.VectorDouble
  else if b = 0x10 then some TypeMarker.VectorObject
  else if b = 0x11 then some TypeMarker.Dictionary
  else none

/-- `parse_single_element` of read.rs: read the marker byte and dispatch.
`fuel` bounds the recursion depth (the source recurses on the input, which
strictly shrinks; fuel exhaustion is an artificial error). -/
def parse_single_element (reg : Registry) : Nat → PRm Value
  | 0 => pfail
  | fuel + 1 => do
      let marker ← be_u8
      match typeMarkerOfByte marker with
      | none => pfail
      | some TypeMarker.Undefined => pure Value.Undefined
      | some TypeMarker.Null => pure Value.Null
      | some TypeMarker.False => pure (Value.Bool false)
      | some TypeMarker.True => pure (Value.Bool true)
      | some TypeMarker.Integer => parse_element_int
      | some TypeMarker.Number => parse_element_number
      | some TypeMarker.String => parse_element_string
      | some TypeMarker.XML => parse_element_xml false
      | some TypeMarker.Date => parse_element_date
      | some TypeMarker.Array => parse_element_array (parse_single_element reg fuel) fuel
      | some TypeMarker.Object => parse_element_object reg (parse_single_element reg fuel) fuel
      | some TypeMarker.XmlString => parse_element_xml true
      | some TypeMarker.ByteArray => parse_element_byte_array
      | some TypeMarker.VectorObject => parse_element_object_vector (parse_single_element reg fuel)
      | some TypeMarker.VectorInt => parse_element_vector_int
      | some TypeMarker.VectorUInt => parse_element_vector_uint
      | some TypeMarker.VectorDouble => parse_element_vector_double
      | some TypeMarker.Dictionary => parse_element_dict (parse_single_element reg fuel)

/-- `parse_element` of read.rs: a string name followed by one element. -/
def parse_element (reg : Registry) (fuel : Nat) : PRm Element := do
  let name ← parse_string
  let v ← parse_single_element reg fuel
  pure (name, v)

/-- Modelled from the spec: the `PADDING` constant of the crate root is not
under src/; spec section 6 (Wire format) fixes it as the two bytes
`[0x00, 0x00]`. -/
def PADDING : List Nat := [0x00, 0x00]

/-- The loop of `nom::multi::separated_list0`: try the separator (on error,
return what was collected, input backtracked to before the separator; the
decoder state mutations of the failed attempt persist), error out if the
separator consumed nothing, then try the item (on error, backtrack
likewise). -/
def sepList0Loop {α : Type} (sep : PRm Unit) (f : PRm α) : Nat → AMF3Decoder → List Nat → PR (List α)
  | 0, st, _ => PR.err st
  | fuel + 1, st, i =>
    match sep st i with
    | PR.err st => PR.ok st i []
    | PR.panic => PR.panic
    | PR.ok st1 i1 _ =>
      if i1.length = i.length then PR.err st1
      else
        match f st1 i1 with
        | PR.err st => PR.ok st i []
        | PR.panic => PR.panic
        | PR.ok st2 i2 x =>
          match sepList0Loop sep f fuel st2 i2 with
          | PR.ok st3 i3 xs => PR.ok st3 i3 (x :: xs)
          | PR.err st3 => PR.err st3
          | PR.panic => PR.panic

/-- `nom::multi::separated_list0`. -/
def separated_list0 {α : Type} (sep : PRm Unit) (f : PRm α) (fuel : Nat) : PRm (List α) :=
  fun st i =>
    match f st i with
    | PR.err st => PR.ok st i []
    | PR.panic => PR.panic
    | PR.ok st1 i1 x =>
      match sepList0Loop sep f fuel st1 i1 with
      | PR.ok st2 i2 xs => PR.ok st2 i2 (x :: xs)
      | PR.err st2 => PR.err st2
      | PR.panic => PR.panic

/-- `parse_body` of read.rs: `separated_list0(tag(PADDING), parse_element)`
followed by one final `tag(PADDING)`. -/
def parse_body (reg : Registry) (fuel : Nat) : PRm (List Element) := do
  let elements ← separated_list0 (tagBytes PADDING) (parse_element reg fuel) fuel
  let _ ← tagBytes PADDING
  pure elements

/-- The state carried by a non-panicking outcome. -/
def PR.stateOf {α : Type} : PR α → Option AMF3Decoder
  | .ok st _ _ => some st
  | .err st => some st
  | .panic => none

/-- The value of a successful outcome. -/
def PR.value? {α : Type} : PR α → Option α
  | .ok _ _ a => some a
  | _ => none

/-- All entries of the string reference table are non-empty. -/
def stringsOk (st : AMF3Decoder) : Prop :=
  ∀ s ∈ st.string_reference_table, s ≠ []

/-- The monotone state transition every decode step performs: the string
and trait tables grow by appends, the object table never shrinks, and the
object table grows by exactly as many slots as inline complex values were
begun (the ghost `inlineCount`); non-empty string entries stay the
invariant. -/
def growsAll (st st' : AMF3Decoder) : Prop :=
  (∃ t, st'.string_reference_table = st.string_reference_table ++ t) ∧
  (∃ t, st'.trait_reference_table = st.trait_reference_table ++ t) ∧
  st.object_reference_table.length ≤ st'.object_reference_table.length ∧
  st'.object_reference_table.length + st.inlineCount =
    st.object_reference_table.length + st'.inlineCount ∧
  (stringsOk st → stringsOk st')

/-- A parse step preserves the relation `P` between its pre- and
post-states, on every non-panicking outcome (success or error). -/
def PreservesP (P : AMF3Decoder → AMF3Decoder → Prop) {α : Type} (m : PRm α) : Prop :=
  ∀ st i st', (m st i).stateOf = some st' → P st st'

/-- A parse step that never changes the decoder state. -/
def stateId {α : Type} (m : PRm α) : Prop :=
  ∀ st i st', (m st i).stateOf = some st' → st' = st

/-- Every registered external decoder performs only monotone state
transitions (the contract of spec section 6 implies this: external
decoders recurse through the decoder's own parse functions). -/
def extOk (reg : Registry) : Prop :=
  ∀ p ∈ reg, ∀ (st : AMF3Decoder) (i : List Nat) (st' : AMF3Decoder),
    (p.2 st i).stateOf = some st' → growsAll st st'

/-- Both tables the string/trait-level parsers touch: the relation `P` is
a preorder compatible with interning a non-empty byte string and a trait. -/
structure PGood0 (P : AMF3Decoder → AMF3Decoder → Prop) : Prop where
  refl : ∀ s, P s s
  trans : ∀ a b c, P a b → P b c → P a c
  pushS : ∀ st b, b ≠ [] →
    P st { st with string_reference_table := st.string_reference_table ++ [b] }
  pushT : ∀ st cd,
    P st { st with trait_reference_table := st.trait_reference_table ++ [cd] }

/-- Additionally: compatibility with the object-table transitions (slot
reservation, clone bumping, slot patching) and with every registered
external decoder. -/
structure PGood (P : AMF3Decoder → AMF3Decoder → Prop) (reg : Registry)
    extends PGood0 P : Prop where
  reserve : ∀ st s, P st { st with
    object_reference_table := st.object_reference_table ++ [s],
    inlineCount := st.inlineCount + 1 }
  bump : ∀ st idx,
    P st { st with object_reference_table := bumpClone st.object_reference_table idx }
  set : ∀ st idx s,
    P st { st with object_reference_table := st.object_reference_table.set idx s }
  ext : ∀ name f, lookupFn reg name = some f → ∀ st i st',
    (f st i).stateOf = some st' → P st st'

/-- The object table and the ghost inline counter are untouched (the
invariant of the string/trait-level parsers). -/
def objEq (st st' : AMF3Decoder) : Prop :=
  st'.object_reference_table = st.object_reference_table ∧
  st'.inlineCount = st.inlineCount

/-- Canonical shortest-form 1-4 byte U29 encoding of `v < 2^29`, written
from the encoding description of spec section 4.1 (each of the first
bytes carries the continuation bit 0x80 and seven payload bits, the fourth
byte carries eight payload bits); used to state the bijection claims about
the decoders. -/
def canonicalU29 (v : Nat) : List Nat :=
  if v < 0x80 then [v]
  else if v < 0x4000 then [0x80 ||| (v >>> 7), v &&& 0x7F]
  else if v < 0x200000 then
    [0x80 ||| (v >>> 14), 0x80 ||| ((v >>> 7) &&& 0x7F), v &&& 0x7F]
  else
    [0x80 ||| (v >>> 22), 0x80 ||| ((v >>> 15) &&& 0x7F), 0x80 ||| ((v >>> 8) &&& 0x7F),
      v &&& 0xFF]

/-- The final transformation `read_int` applies to the assembled 29-bit
value: on the four-byte path with bit `0x10000000` set it doubles and adds
one; otherwise the assembled value is returned unchanged (for values below
`2^21`, which use at most three bytes, the bit cannot be set). -/
def u29fix (v : Nat) : Nat := if v &&& 0x10000000 ≠ 0 then (v <<< 1) + 1 else v

/-- The final sign correction `read_int_signed` applies to the assembled
29-bit value. -/
def i29fix (v : Nat) : Int :=
  if v &&& 0x10000000 ≠ 0 then (v : Int) - 0x20000000 else (v : Int)

/-- The registry of spec scenario 4: one external decoder registered for
the class name `"E"` (byte 0x45) that consumes nothing and returns no
elements. -/
def regE : Registry := [([0x45], fun st i => PR.ok st i [])]

/-- The trait produced by the object header `0x07 0x03 0x45`: class name
`"E"`, externalizable, no static properties. -/
def cdE : ClassDefinition := ⟨[0x45], ⟨false, true⟩, []⟩

/-- Unfolding of the `PRm` bind. -/
theorem bind_def {α β : Type} (m : PRm α) (f : α → PRm β) (st : AMF3Decoder) (i : List Nat) :
    (m >>= f) st i =
      match m st i with
      | PR.ok st i a => f a st i
      | PR.err st => PR.err st
      | PR.panic => PR.panic := rfl

/-- Unfolding of the `PRm` pure. -/
theorem pure_def {α : Type} (a : α) (st : AMF3Decoder) (i : List Nat) :
    (pure a : PRm α) st i = PR.ok st i a := rfl


/-- C1: the claim says that a back-reference inside a complex value's own
payload that resolves to the value's reserved slot makes the decode
succeed with a cyclic value.  On this code it does not: the patch step
`Rc::get_mut(..).expect(..)` finds the slot's handle still cloned and
panics.  First input: an inline one-element dense array whose sole element
is a back-reference to the array's own slot 0.  Second input: the
self-referential dynamic object of spec scenario 2 (trait `"C"`, dynamic,
one member `"self"` referencing slot 0). -/
theorem c1_self_back_reference_panics :
    parse_single_element [] 16 emptyDecoder [0x09, 0x03, 0x01, 0x09, 0x00] = PR.panic ∧
    parse_single_element [] 16 emptyDecoder
      [0x0A, 0x0B, 0x03, 0x43, 0x09, 0x73, 0x65, 0x6C, 0x66, 0x0A, 0x00, 0x01] = PR.panic :=
  ⟨rfl, rfl⟩

/-- C2 counterexample: the bytes `FF FF FF FF` decode to 1073741823 under
`read_int`, not to `2^29 - 1 = 536870911` as the claim states: after the
fourth byte is OR-ed in, the source additionally doubles the result and
adds one because bit `0x10000000` is set. -/
theorem c2_counterexample_ffff :
    read_int [0xFF, 0xFF, 0xFF, 0xFF] = some ([], 1073741823) ∧
    read_int [0xFF, 0xFF, 0xFF, 0xFF] ≠ some ([], 536870911) :=
  ⟨rfl, by decide⟩

/-- C3 counterexample: with the external decoder registered for class
`"E"`, decoding the externalizable object `0A 07 03 45` returns a
`Custom([], [], Some(trait))` value, but the reserved object-table slot is
NOT replaced with it: the slot still holds `Object([], Some(trait))`, and
a later back-reference `0A 00` to that slot therefore yields that
`Object`, not the `Custom` value — contradicting the claim. -/
theorem c3_counterexample_slot_not_replaced :
    (parse_single_element regE 16 emptyDecoder [0x0A, 0x07, 0x03, 0x45] =
      PR.ok ⟨[[0x45]], [cdE], [⟨Value.Object [] (some cdE), 0⟩], 1⟩ []
        (Value.Custom [] [] (some cdE))) ∧
    (parse_single_element regE 16 ⟨[[0x45]], [cdE], [⟨Value.Object [] (some cdE), 0⟩], 1⟩
      [0x0A, 0x00] =
      PR.ok ⟨[[0x45]], [cdE], [⟨Value.Object [] (some cdE), 1⟩], 1⟩ []
        (Value.Object [] (some cdE))) ∧
    (∀ c r mcd, Value.Object [] (some cdE) ≠ Value.Custom c r mcd) :=
  ⟨rfl, rfl, fun _ _ _ h => Value.noConfusion h⟩

/-- C8: when the declared element count `n` of an inline `VectorDouble`
satisfies `n * 8 >` remaining bytes, the guard fails before the fixed-flag
byte or any element is read; the only state change is the already reserved
placeholder slot. -/
theorem c8_vector_double_oversize_guard (st : AMF3Decoder) (i i1 : List Nat) (n : Nat)
    (hlen : read_length i = some (i1, Length.Size n)) (hshort : i1.length < n * 8) :
    parse_element_vector_double st i =
      PR.err { st with
        object_reference_table := st.object_reference_table ++ [⟨Value.Null, 0⟩],
        inlineCount := st.inlineCount + 1 } := by
  unfold parse_element_vector_double parse_reference_or_val
  rw [hlen]
  dsimp only
  rw [bind_def]
  unfold oversizeGuard
  rw [if_pos hshort]

/-- Witness for C8: a `VectorDouble` length header `FF FF FF FF` (declared
count 536870911) with only 16 bytes of input errs out, leaving exactly the
reserved placeholder slot. -/
theorem c8_vector_double_oversize_guard_witness :
    parse_element_vector_double emptyDecoder ([0xFF, 0xFF, 0xFF, 0xFF] ++ List.replicate 16 0) =
      PR.err ⟨[], [], [⟨Value.Null, 0⟩], 1⟩ :=
  c8_vector_double_oversize_guard emptyDecoder _ (List.replicate 16 0) 536870911 rfl (by decide)

/-- C10: `parse_body` parses zero or more named elements separated by the
padding constant and requires one trailing padding constant even for a
zero-element body: on the input consisting of exactly one padding constant
it succeeds with an empty element list and consumes everything, while on
empty input it errors. -/
theorem c10_parse_body_padding :
    parse_body [] 16 emptyDecoder [0x00, 0x00] = PR.ok emptyDecoder [] [] ∧
    parse_body [] 16 emptyDecoder [] = PR.err emptyDecoder :=
  ⟨rfl, rfl⟩

theorem lor_shiftLeft_eq_add {a b k : Nat} (h : b < 2 ^ k) : (a <<< k) ||| b = a * 2 ^ k + b := by
  apply Nat.eq_of_testBit_eq
  intro j
  rw [Nat.testBit_lor, Nat.shiftLeft_eq, Nat.mul_comm a (2 ^ k),
    Nat.testBit_mul_pow_two_add a h, Nat.testBit_mul_pow_two]
  by_cases hj : j < k
  · simp [hj, Nat.not_le_of_lt hj]
  · have hb : b.testBit j = false :=
      Nat.testBit_lt_two_pow (lt_of_lt_of_le h (Nat.pow_le_pow_right (by omega) (by omega)))
    simp [hj, Nat.le_of_not_lt hj, hb]

theorem lor_shl7 {a b : Nat} (h : b < 0x80) : (a <<< 7) ||| b = a * 0x80 + b := by
  have := lor_shiftLeft_eq_add (a := a) (b := b) (k := 7) (by norm_num; omega)
  norm_num at this
  exact this

theorem lor_shl8 {a b : Nat} (h : b < 0x100) : (a <<< 8) ||| b = a * 0x100 + b := by
  have := lor_shiftLeft_eq_add (a := a) (b := b) (k := 8) (by norm_num; omega)
  norm_num at this
  exact this

theorem and_0x80_of_lt {x : Nat} (h : x < 0x80) : x &&& 0x80 = 0 := by
  rw [show (0x80 : Nat) = 2 ^ 7 by norm_num, Nat.and_two_pow,
    Nat.testBit_lt_two_pow (by norm_num; omega)]
  rfl

theorem or_0x80_and_0x80 (x : Nat) : (0x80 ||| x) &&& 0x80 = 0x80 := by
  rw [show (0x80 : Nat) = 2 ^ 7 by norm_num, Nat.and_two_pow, Nat.testBit_lor,
    show Nat.testBit (2 ^ 7) 7 = true from by decide]
  simp

theorem or_0x80_ne (x : Nat) : (0x80 ||| x) &&& 0x80 ≠ 0 := by
  rw [or_0x80_and_0x80]
  norm_num

theorem or_0x80_and_0x7F (x : Nat) : (0x80 ||| x) &&& 0x7F = x &&& 0x7F := by
  rw [Nat.and_distrib_right, show (0x80 : Nat) &&& 0x7F = 0 from by decide, Nat.zero_or]

theorem and_0x7F_eq_mod (x : Nat) : x &&& 0x7F = x % 0x80 := by
  have h := Nat.and_pow_two_sub_one_eq_mod x 7
  norm_num at h
  exact h

theorem and_0xFF_eq_mod (x : Nat) : x &&& 0xFF = x % 0x100 := by
  have h := Nat.and_pow_two_sub_one_eq_mod x 8
  norm_num at h
  exact h

theorem and_0x7F_lt (x : Nat) : x &&& 0x7F < 0x80 := by
  rw [and_0x7F_eq_mod]
  omega

theorem and_bit28_iff (x : Nat) : x &&& 0x10000000 ≠ 0 ↔ x / 2 ^ 28 % 2 = 1 := by
  rw [show (0x10000000 : Nat) = 2 ^ 28 by norm_num, Nat.and_two_pow]
  constructor
  · intro h
    have hb : x.testBit 28 = true := by
      cases hb : x.testBit 28
      · rw [hb] at h; simp at h
      · rfl
    rw [Nat.testBit_to_div_mod] at hb
    simpa using hb
  · intro h
    have hb : x.testBit 28 = true := by rw [Nat.testBit_to_div_mod]; simpa using h
    rw [hb]
    norm_num

theorem and_bit28_zero_of_lt {x : Nat} (h : x < 0x10000000) : x &&& 0x10000000 = 0 := by
  rw [show (0x10000000 : Nat) = 2 ^ 28 by norm_num, Nat.and_two_pow,
    Nat.testBit_lt_two_pow (by norm_num; omega)]
  rfl

theorem u29fix_of_small {v : Nat} (h : v < 0x10000000) : u29fix v = v := by
  unfold u29fix
  rw [if_neg]
  intro hc
  exact hc (and_bit28_zero_of_lt h)

theorem i29fix_of_small {v : Nat} (h : v < 0x10000000) : i29fix v = (v : Int) := by
  unfold i29fix
  rw [if_neg]
  intro hc
  exact hc (and_bit28_zero_of_lt h)

theorem u29walk_w1 {v : Nat} (i : List Nat) (h : v &&& 0x80 = 0) :
    u29walk v i = some (i, 0, v, 0) := by
  simp only [u29walk, h, if_true, ite_true]

theorem u29walk_w2 {v0 v1 : Nat} (i : List Nat) (h0 : ¬ v0 &&& 0x80 = 0) (h1 : v1 &&& 0x80 = 0) :
    u29walk v0 (v1 :: i) = some (i, (0 <<< 7) ||| (v0 &&& 0x7F), v1, 1) := by
  simp only [u29walk, h0, h1, if_false, ite_false, if_true, ite_true]

theorem u29walk_w3 {v0 v1 v2 : Nat} (i : List Nat) (h0 : ¬ v0 &&& 0x80 = 0)
    (h1 : ¬ v1 &&& 0x80 = 0) (h2 : v2 &&& 0x80 = 0) :
    u29walk v0 (v1 :: v2 :: i) =
      some (i, (((0 <<< 7) ||| (v0 &&& 0x7F)) <<< 7) ||| (v1 &&& 0x7F), v2, 2) := by
  simp only [u29walk, h0, h1, h2, if_false, ite_false, if_true, ite_true]

theorem u29walk_w4 {v0 v1 v2 v3 : Nat} (i : List Nat) (h0 : ¬ v0 &&& 0x80 = 0)
    (h1 : ¬ v1 &&& 0x80 = 0) (h2 : ¬ v2 &&& 0x80 = 0) :
    u29walk v0 (v1 :: v2 :: v3 :: i) =
      some (i, ((((0 <<< 7) ||| (v0 &&& 0x7F)) <<< 7) ||| (v1 &&& 0x7F)) <<< 7 ||| (v2 &&& 0x7F),
        v3, 3) := by
  simp only [u29walk, h0, h1, h2, if_false, ite_false]

theorem asm2 {v : Nat} (h : v < 0x4000) :
    ((((0 <<< 7) ||| ((0x80 ||| (v >>> 7)) &&& 0x7F)) <<< 7) ||| (v &&& 0x7F)) = v := by
  rw [Nat.zero_shiftLeft, Nat.zero_or, or_0x80_and_0x7F,
    lor_shl7 (and_0x7F_lt v), and_0x7F_eq_mod, and_0x7F_eq_mod,
    Nat.shiftRight_eq_div_pow]
  omega

theorem asm3 {v : Nat} (h : v < 0x200000) :
    (((((0 <<< 7) ||| ((0x80 ||| (v >>> 14)) &&& 0x7F)) <<< 7) |||
        ((0x80 ||| ((v >>> 7) &&& 0x7F)) &&& 0x7F)) <<< 7) ||| (v &&& 0x7F) = v := by
  rw [Nat.zero_shiftLeft, Nat.zero_or, or_0x80_and_0x7F, or_0x80_and_0x7F,
    lor_shl7 (and_0x7F_lt _), lor_shl7 (and_0x7F_lt _),
    and_0x7F_eq_mod, and_0x7F_eq_mod, and_0x7F_eq_mod, and_0x7F_eq_mod,
    Nat.shiftRight_eq_div_pow, Nat.shiftRight_eq_div_pow]
  omega

theorem asm4 {v : Nat} (h : v < 0x20000000) :
    ((((((0 <<< 7) ||| ((0x80 ||| (v >>> 22)) &&& 0x7F)) <<< 7) |||
        ((0x80 ||| ((v >>> 15) &&& 0x7F)) &&& 0x7F)) <<< 7 |||
        ((0x80 ||| ((v >>> 8) &&& 0x7F)) &&& 0x7F)) <<< 8) ||| (v &&& 0xFF) = v := by
  rw [Nat.zero_shiftLeft, Nat.zero_or, or_0x80_and_0x7F, or_0x80_and_0x7F, or_0x80_and_0x7F,
    lor_shl8 (by rw [and_0xFF_eq_mod]; omega),
    lor_shl7 (and_0x7F_lt _), lor_shl7 (and_0x7F_lt _),
    and_0x7F_eq_mod, and_0x7F_eq_mod, and_0x7F_eq_mod, and_0x7F_eq_mod, and_0x7F_eq_mod,
    and_0xFF_eq_mod, Nat.shiftRight_eq_div_pow, Nat.shiftRight_eq_div_pow,
    Nat.shiftRight_eq_div_pow]
  omega

/-- The forward half of the C2/C4 roundtrips: `read_int` on a canonical
encoding yields the encoded value transformed by the source's final
conditional double-and-add-one step. -/
theorem read_int_canonical (v : Nat) (h : v < 2 ^ 29) :
    read_int (canonicalU29 v) = some ([], u29fix v) := by
  unfold canonicalU29
  split_ifs with h1 h2 h3
  · simp only [read_int, u29walk_w1 [] (and_0x80_of_lt h1)]
    rw [if_pos (by norm_num : (0 : Nat) < 3), Nat.zero_shiftLeft, Nat.zero_or,
      u29fix_of_small (by omega)]
  · simp only [read_int, u29walk_w2 [] (or_0x80_ne _) (and_0x80_of_lt (and_0x7F_lt v))]
    rw [if_pos (by norm_num : (1 : Nat) < 3), asm2 h2, u29fix_of_small (by omega)]
  · simp only [read_int, u29walk_w3 [] (or_0x80_ne _) (or_0x80_ne _)
      (and_0x80_of_lt (and_0x7F_lt v))]
    rw [if_pos (by norm_num : (2 : Nat) < 3), asm3 h3, u29fix_of_small (by omega)]
  · simp only [read_int, u29walk_w4 [] (or_0x80_ne _) (or_0x80_ne _) (or_0x80_ne _)]
    rw [if_neg (by norm_num : ¬ (3 : Nat) < 3), asm4 (by omega)]
    unfold u29fix
    split_ifs <;> rfl

/-- The signed counterpart: `read_int_signed` on a canonical encoding
yields the encoded value with the source's sign correction. -/
theorem read_int_signed_canonical (v : Nat) (h : v < 2 ^ 29) :
    read_int_signed (canonicalU29 v) = some ([], i29fix v) := by
  unfold canonicalU29
  split_ifs with h1 h2 h3
  · simp only [read_int_signed, u29walk_w1 [] (and_0x80_of_lt h1)]
    rw [if_pos (by norm_num : (0 : Nat) < 3), Nat.zero_shiftLeft, Nat.zero_or,
      i29fix_of_small (by omega)]
  · simp only [read_int_signed, u29walk_w2 [] (or_0x80_ne _) (and_0x80_of_lt (and_0x7F_lt v))]
    rw [if_pos (by norm_num : (1 : Nat) < 3), asm2 h2, i29fix_of_small (by omega)]
  · simp only [read_int_signed, u29walk_w3 [] (or_0x80_ne _) (or_0x80_ne _)
      (and_0x80_of_lt (and_0x7F_lt v))]
    rw [if_pos (by norm_num : (2 : Nat) < 3), asm3 h3, i29fix_of_small (by omega)]
  · simp only [read_int_signed, u29walk_w4 [] (or_0x80_ne _) (or_0x80_ne _) (or_0x80_ne _)]
    rw [if_neg (by norm_num : ¬ (3 : Nat) < 3), asm4 (by omega)]
    unfold i29fix
    split_ifs <;> rfl

theorem u29fix_inj {v w : Nat} (hv : v < 2 ^ 29) (hw : w < 2 ^ 29)
    (h : u29fix v = u29fix w) : v = w := by
  unfold u29fix at h
  by_cases cv : v &&& 0x10000000 ≠ 0 <;> by_cases cw : w &&& 0x10000000 ≠ 0
  · rw [if_pos cv, if_pos cw] at h
    simp only [Nat.shiftLeft_eq] at h
    omega
  · rw [if_pos cv, if_neg cw] at h
    have h1 := (and_bit28_iff v).mp cv
    have h2 : w / 2 ^ 28 % 2 = 0 := by
      rcases Nat.mod_two_eq_zero_or_one (w / 2 ^ 28) with h0 | hx
      · exact h0
      · exact absurd ((and_bit28_iff w).mpr hx) cw
    simp only [Nat.shiftLeft_eq] at h
    omega
  · rw [if_neg cv, if_pos cw] at h
    have h1 := (and_bit28_iff w).mp cw
    have h2 : v / 2 ^ 28 % 2 = 0 := by
      rcases Nat.mod_two_eq_zero_or_one (v / 2 ^ 28) with h0 | hx
      · exact h0
      · exact absurd ((and_bit28_iff v).mpr hx) cv
    simp only [Nat.shiftLeft_eq] at h
    omega
  · rw [if_neg cv, if_neg cw] at h
    exact h

/-- C2 (amended): on the four-byte path `read_int` computes the 21
accumulated bits shifted left by 8 OR-ed with the fourth byte **and then**,
when bit `0x10000000` of that value is set, doubles it and adds one; hence
`FF FF FF FF` decodes to 1073741823, not `2^29 - 1`.  The decoder is still
injective on canonical 1-4 byte encodings (each value `v < 2^29` decodes
to `u29fix v`, and `u29fix` is injective below `2^29`), but it is not a
bijection onto `[0, 2^29 - 1]`. -/
theorem c2_u29_decoder_amended :
    (∀ v : Nat, v < 2 ^ 29 → read_int (canonicalU29 v) = some ([], u29fix v)) ∧
    (∀ v w : Nat, v < 2 ^ 29 → w < 2 ^ 29 →
      read_int (canonicalU29 v) = read_int (canonicalU29 w) → v = w) ∧
    read_int [0xFF, 0xFF, 0xFF, 0xFF] = some ([], 1073741823) := by
  refine ⟨read_int_canonical, ?_, rfl⟩
  intro v w hv hw heq
  rw [read_int_canonical v hv, read_int_canonical w hw] at heq
  obtain ⟨-, h2⟩ := Prod.mk.injEq _ _ _ _ ▸ Option.some.inj heq
  exact u29fix_inj hv hw h2

/-- Witness for C2 (amended) at the concrete value `2^29 - 1`: its
canonical encoding is `FF FF FF FF` and it decodes to
`u29fix 536870911 = 1073741823`. -/
theorem c2_u29_decoder_amended_witness :
    read_int (canonicalU29 536870911) = some ([], u29fix 536870911) ∧
    canonicalU29 536870911 = [0xFF, 0xFF, 0xFF, 0xFF] ∧
    u29fix 536870911 = 1073741823 :=
  ⟨c2_u29_decoder_amended.1 536870911 (by norm_num), by decide, by decide⟩

/-- C4: `read_int_signed` walks the same bytes as `read_int` (both fail on
the same inputs and consume the same prefix), every canonical encoding of
`v < 2^29` decodes to `i29fix v`, which lies in `[-2^28, 2^28 - 1]`, and
`FF FF FF FF` decodes to `-1`. -/
theorem c4_i29_signed_decoder :
    (∀ v : Nat, v < 2 ^ 29 →
      read_int_signed (canonicalU29 v) = some ([], i29fix v) ∧
      -(2 ^ 28) ≤ i29fix v ∧ i29fix v < 2 ^ 28) ∧
    (∀ i : List Nat, (read_int i = none ↔ read_int_signed i = none) ∧
      (∀ r1 v1 r2 v2, read_int i = some (r1, v1) → read_int_signed i = some (r2, v2) →
        r1 = r2)) ∧
    read_int_signed [0xFF, 0xFF, 0xFF, 0xFF] = some ([], -1) := by
  refine ⟨?_, ?_, rfl⟩
  · intro v hv
    refine ⟨read_int_signed_canonical v hv, ?_, ?_⟩
    · unfold i29fix
      by_cases cv : v &&& 0x10000000 ≠ 0
      · rw [if_pos cv]
        have h1 := (and_bit28_iff v).mp cv
        omega
      · rw [if_neg cv]
        omega
    · unfold i29fix
      by_cases cv : v &&& 0x10000000 ≠ 0
      · rw [if_pos cv]
        have h1 := (and_bit28_iff v).mp cv
        omega
      · rw [if_neg cv]
        have h2 : v / 2 ^ 28 % 2 = 0 := by
          rcases Nat.mod_two_eq_zero_or_one (v / 2 ^ 28) with h0 | hx
          · exact h0
          · exact absurd ((and_bit28_iff v).mpr hx) cv
        omega
  · intro i
    cases i with
    | nil =>
      refine ⟨by simp [read_int, read_int_signed], ?_⟩
      intro r1 v1 r2 v2 h1 h2
      simp [read_int] at h1
    | cons v j =>
      unfold read_int read_int_signed
      cases hw : u29walk v j with
      | none =>
        simp only [hw]
        refine ⟨by simp, ?_⟩
        intro r1 v1 r2 v2 h1 h2
        simp at h1
      | some t =>
        obtain ⟨i', r, vl, n⟩ := t
        simp only [hw]
        split_ifs with hn hb
        · exact ⟨by simp, by intro r1 v1 r2 v2 h1 h2; cases h1; cases h2; rfl⟩
        · exact ⟨by simp, by intro r1 v1 r2 v2 h1 h2; cases h1; cases h2; rfl⟩
        · exact ⟨by simp, by intro r1 v1 r2 v2 h1 h2; cases h1; cases h2; rfl⟩

theorem manyN_length {α : Type} : ∀ {n : Nat} {p : PRm α} {st i st' i' xs},
    manyN n p st i = PR.ok st' i' xs → xs.length = n := by
  intro n
  induction n with
  | zero =>
    intro p st i st' i' xs h
    simp only [manyN, pure_def] at h
    cases h
    rfl
  | succ k ih =>
    intro p st i st' i' xs h
    simp only [manyN, bind_def, pure_def] at h
    split at h
    · split at h
      · cases h
        simp only [List.length_cons]
        next hm => rw [ih hm]
      · cases h
      · cases h
    · cases h
    · cases h

theorem parse_element_array_body_shape {pse : PRm Value} {fuel n : Nat}
    {st st' : AMF3Decoder} {i i' : List Nat} {v : Value}
    (h : parse_element_array_body pse fuel n st i = PR.ok st' i' v) :
    (∃ items, v = Value.StrictArray items ∧ items.length = n) ∨
    (∃ d a, v = Value.ECMAArray d a a.length ∧ d.length = n) := by
  simp only [parse_element_array_body, bind_def, pure_def] at h
  split at h
  · -- guard succeeded
    split at h
    · -- byte stream ok
      split at h
      · -- key = [] : dense
        simp only [bind_def, pure_def] at h
        split at h
        · cases h
          exact Or.inl ⟨_, rfl, manyN_length (by assumption)⟩
        · cases h
        · cases h
      · -- associative loop then dense
        simp only [bind_def, pure_def] at h
        split at h
        · split at h
          · cases h
            exact Or.inr ⟨_, _, rfl, manyN_length (by assumption)⟩
          · cases h
          · cases h
        · cases h
        · cases h
    · cases h
    · cases h
  · cases h
  · cases h

/-- C5: for an inline array header of size `n`, a successful
`parse_element_array` yields either a `StrictArray` of exactly `n` dense
elements, or an `ECMAArray` whose third field is the length of the
associative part (never the dense length) and whose dense part has exactly
`n` elements; plus the two concrete scenarios of spec section 8 (the
ECMA-array with associative entry `("a", 1)`, dense `[10, 20]` and third
field 1, and a dense-only array that becomes a `StrictArray`). -/
theorem c5_array_inline_shapes :
    (∀ (pse : PRm Value) (fuel : Nat) (st st' : AMF3Decoder) (i i1 rest : List Nat)
      (n : Nat) (v : Value),
      read_length i = some (i1, Length.Size n) →
      parse_element_array pse fuel st i = PR.ok st' rest v →
      (∃ items, v = Value.StrictArray items ∧ items.length = n) ∨
      (∃ d a, v = Value.ECMAArray d a a.length ∧ d.length = n)) ∧
    (PR.value? (parse_single_element [] 32 emptyDecoder
        [0x09, 0x05, 0x03, 0x61, 0x04, 0x01, 0x01, 0x04, 0x0A, 0x04, 0x14]) =
      some (Value.ECMAArray [Value.Integer 10, Value.Integer 20]
        [([0x61], Value.Integer 1)] 1)) ∧
    (PR.value? (parse_single_element [] 32 emptyDecoder [0x09, 0x03, 0x01, 0x04, 0x05]) =
      some (Value.StrictArray [Value.Integer 5])) := by
  refine ⟨?_, rfl, rfl⟩
  intro pse fuel st st' i i1 rest n v hread h
  simp only [parse_element_array, parse_reference_or_val, hread] at h
  split at h
  · cases h
  · cases h
  · -- payload parser succeeded
    next st2 i2 res hbody =>
      split at h
      · cases h
      · split at h
        · cases h
        · cases h
          exact parse_element_array_body_shape hbody

/-- Witness for C5 at the concrete ECMA-array input of spec scenario 3. -/
theorem c5_array_inline_shapes_witness :
    (∃ items, (Value.ECMAArray [Value.Integer 10, Value.Integer 20]
        [([0x61], Value.Integer 1)] 1) = Value.StrictArray items ∧ items.length = 2) ∨
    (∃ d a, (Value.ECMAArray [Value.Integer 10, Value.Integer 20]
        [([0x61], Value.Integer 1)] 1) = Value.ECMAArray d a a.length ∧ d.length = 2) :=
  c5_array_inline_shapes.1 (parse_single_element [] 31) 31 emptyDecoder
    ⟨[[0x61]], [],
      [⟨Value.ECMAArray [Value.Integer 10, Value.Integer 20] [([0x61], Value.Integer 1)] 1, 1⟩],
      1⟩
    [0x05, 0x03, 0x61, 0x04, 0x01, 0x01, 0x04, 0x0A, 0x04, 0x14]
    [0x03, 0x61, 0x04, 0x01, 0x01, 0x04, 0x0A, 0x04, 0x14] [] 2
    (Value.ECMAArray [Value.Integer 10, Value.Integer 20] [([0x61], Value.Integer 1)] 1)
    rfl rfl

/-- Witness for C4 at `v = 2^29 - 1` (canonical bytes `FF FF FF FF`) and
at `v = 127`. -/
theorem c4_i29_signed_decoder_witness :
    (read_int_signed (canonicalU29 536870911) = some ([], i29fix 536870911) ∧
      -(2 ^ 28) ≤ i29fix 536870911 ∧ i29fix 536870911 < 2 ^ 28) ∧
    i29fix 536870911 = -1 ∧
    (read_int [0x7F] = none ↔ read_int_signed [0x7F] = none) :=
  ⟨c4_i29_signed_decoder.1 536870911 (by norm_num), by decide,
    (c4_i29_signed_decoder.2.1 [0x7F]).1⟩

theorem stateId_pure {α : Type} (a : α) : stateId (pure a : PRm α) := by
  intro st i st' h
  simp only [pure_def, PR.stateOf] at h
  exact (Option.some.inj h).symm

theorem stateId_pfail {α : Type} : stateId (pfail : PRm α) := by
  intro st i st' h
  simp only [pfail, PR.stateOf] at h
  exact (Option.some.inj h).symm

theorem stateId_be_u8 : stateId be_u8 := by
  intro st i st' h
  cases i <;> simp only [be_u8, PR.stateOf] at h <;> exact (Option.some.inj h).symm

theorem stateId_takeBytes (n : Nat) : stateId (takeBytes n) := by
  intro st i st' h
  unfold takeBytes at h
  split at h <;> simp only [PR.stateOf] at h <;> exact (Option.some.inj h).symm

theorem stateId_tagBytes (t : List Nat) : stateId (tagBytes t) := by
  intro st i st' h
  unfold tagBytes at h
  split at h <;> simp only [PR.stateOf] at h <;> exact (Option.some.inj h).symm

theorem stateId_oversizeGuard (b : Nat) : stateId (oversizeGuard b) := by
  intro st i st' h
  unfold oversizeGuard at h
  split at h <;> simp only [PR.stateOf] at h <;> exact (Option.some.inj h).symm

theorem stateId_read_intP : stateId read_intP := by
  intro st i st' h
  unfold read_intP at h
  split at h <;> simp only [PR.stateOf] at h <;> exact (Option.some.inj h).symm

theorem stateId_read_int_signedP : stateId read_int_signedP := by
  intro st i st' h
  unfold read_int_signedP at h
  split at h <;> simp only [PR.stateOf] at h <;> exact (Option.some.inj h).symm

theorem stateId_read_lengthP : stateId read_lengthP := by
  intro st i st' h
  unfold read_lengthP at h
  split at h <;> simp only [PR.stateOf] at h <;> exact (Option.some.inj h).symm

theorem stateId_bind {α β : Type} {m : PRm α} {f : α → PRm β}
    (hm : stateId m) (hf : ∀ a, stateId (f a)) : stateId (m >>= f) := by
  intro st i st' h
  rw [bind_def] at h
  cases hme : m st i with
  | ok st1 i1 a =>
    simp only [hme] at h
    rw [hf a st1 i1 st' h, hm st i st1 (by rw [hme]; rfl)]
  | err st1 =>
    simp only [hme, PR.stateOf] at h
    cases h
    exact hm st i st' (by rw [hme]; rfl)
  | panic =>
    simp only [hme, PR.stateOf] at h
    exact Option.noConfusion h

theorem stateId_beBytes (n : Nat) : stateId (beBytes n) := by
  induction n with
  | zero => exact stateId_pure 0
  | succ k ih =>
    show stateId (beBytes (k + 1))
    unfold beBytes
    exact stateId_bind stateId_be_u8 fun hi =>
      stateId_bind ih fun lo => stateId_pure _

theorem stateId_parse_element_int : stateId parse_element_int :=
  stateId_bind stateId_read_int_signedP fun s => stateId_pure _

theorem stateId_parse_element_number : stateId parse_element_number :=
  stateId_bind (stateId_beBytes 8) fun v => stateId_pure _

theorem preserves_of_stateId {P : AMF3Decoder → AMF3Decoder → Prop}
    (hrefl : ∀ s, P s s) {α : Type} {m : PRm α} (hm : stateId m) : PreservesP P m := by
  intro st i st' h
  rw [hm st i st' h]
  exact hrefl st

theorem pres_bind {P : AMF3Decoder → AMF3Decoder → Prop}
    (htrans : ∀ a b c, P a b → P b c → P a c) {α β : Type} {m : PRm α} {f : α → PRm β}
    (hm : PreservesP P m) (hf : ∀ a, PreservesP P (f a)) : PreservesP P (m >>= f) := by
  intro st i st' h
  rw [bind_def] at h
  cases hme : m st i with
  | ok st1 i1 a =>
    simp only [hme] at h
    exact htrans _ _ _ (hm st i st1 (by rw [hme]; rfl)) (hf a st1 i1 st' h)
  | err st1 =>
    simp only [hme, PR.stateOf] at h
    cases h
    exact hm st i st' (by rw [hme]; rfl)
  | panic =>
    simp only [hme, PR.stateOf] at h
    exact Option.noConfusion h

theorem pres_ite {P : AMF3Decoder → AMF3Decoder → Prop} {c : Prop} [Decidable c]
    {α : Type} {m1 m2 : PRm α} (h1 : PreservesP P m1) (h2 : PreservesP P m2) :
    PreservesP P (if c then m1 else m2) := by
  intro st i st' h
  by_cases hc : c
  · rw [if_pos hc] at h
    exact h1 st i st' h
  · rw [if_neg hc] at h
    exact h2 st i st' h

theorem pres_parse_byte_stream {P : AMF3Decoder → AMF3Decoder → Prop} (G : PGood0 P) :
    PreservesP P parse_byte_stream := by
  intro st i st' h
  unfold parse_byte_stream at h
  cases hr : read_length i with
  | none =>
    simp only [hr, PR.stateOf] at h
    cases h
    exact G.refl st
  | some t =>
    obtain ⟨i1, l⟩ := t
    cases l with
    | Size len =>
      simp only [hr] at h
      by_cases h0 : len = 0
      · rw [if_pos h0] at h
        simp only [PR.stateOf] at h
        cases h
        exact G.refl st
      · rw [if_neg h0] at h
        cases ht : takeBytes len st i1 with
        | ok st2 i2 bytes =>
          simp only [ht, PR.stateOf] at h
          cases h
          unfold takeBytes at ht
          split at ht
          · cases ht
            apply G.pushS
            intro hnil
            apply h0
            have hlen := congrArg List.length hnil
            rw [List.length_take] at hlen
            simp only [List.length_nil] at hlen
            omega
          · cases ht
        | err st2 =>
          simp only [ht, PR.stateOf] at h
          cases h
          rw [stateId_takeBytes len st i1 st' (by rw [ht]; rfl)]
          exact G.refl st
        | panic =>
          simp only [ht, PR.stateOf] at h
          exact Option.noConfusion h
    | Reference idx =>
      simp only [hr] at h
      cases hg : st.string_reference_table[idx]? with
      | none =>
        simp only [hg, PR.stateOf] at h
        cases h
        exact G.refl st
      | some bytes =>
        simp only [hg, PR.stateOf] at h
        cases h
        exact G.refl st

theorem pres_parse_string {P : AMF3Decoder → AMF3Decoder → Prop} (G : PGood0 P) :
    PreservesP P parse_string := by
  unfold parse_string
  exact pres_bind G.trans (pres_parse_byte_stream G) fun bytes =>
    pres_ite (preserves_of_stateId G.refl (stateId_pure _))
      (preserves_of_stateId G.refl stateId_pfail)

theorem pres_manyN {P : AMF3Decoder → AMF3Decoder → Prop} (G : PGood0 P) {α : Type}
    {p : PRm α} (hp : PreservesP P p) (n : Nat) : PreservesP P (manyN n p) := by
  induction n with
  | zero => exact preserves_of_stateId G.refl (stateId_pure _)
  | succ k ih =>
    show PreservesP P (manyN (k + 1) p)
    unfold manyN
    exact pres_bind G.trans hp fun x =>
      pres_bind G.trans ih fun xs => preserves_of_stateId G.refl (stateId_pure _)

theorem pres_pushTrait {P : AMF3Decoder → AMF3Decoder → Prop} (G : PGood0 P)
    (cd : ClassDefinition) : PreservesP P (pushTrait cd) := by
  intro st i st' h
  simp only [pushTrait, PR.stateOf] at h
  cases h
  exact G.pushT st cd

theorem pres_parse_class_def {P : AMF3Decoder → AMF3Decoder → Prop} (G : PGood0 P)
    (length : Nat) : PreservesP P (parse_class_def length) := by
  intro st i st' h
  unfold parse_class_def at h
  split at h
  · split at h
    · simp only [PR.stateOf] at h
      cases h
      exact G.refl st
    · simp only [PR.stateOf] at h
      cases h
      exact G.refl st
  · exact (pres_bind G.trans (pres_parse_byte_stream G) fun name =>
      pres_bind G.trans
        (pres_ite (preserves_of_stateId G.refl (stateId_pure _))
          (pres_ite (preserves_of_stateId G.refl (stateId_pure _))
            (preserves_of_stateId G.refl stateId_pfail))) fun name_str =>
      pres_bind G.trans (pres_manyN G (pres_parse_string G) _) fun static_props =>
      pres_bind G.trans (pres_pushTrait G _) fun _ =>
      preserves_of_stateId G.refl (stateId_pure _)) st i st' h

theorem pres_arrayAssocLoop {P : AMF3Decoder → AMF3Decoder → Prop} (G : PGood0 P)
    {pse : PRm Value} (hp : PreservesP P pse) (fuel : Nat) :
    ∀ key, PreservesP P (arrayAssocLoop pse fuel key) := by
  induction fuel with
  | zero => exact fun key => preserves_of_stateId G.refl stateId_pfail
  | succ k ih =>
    intro key
    show PreservesP P (arrayAssocLoop pse (k + 1) key)
    unfold arrayAssocLoop
    refine pres_ite (preserves_of_stateId G.refl (stateId_pure _)) ?_
    exact pres_bind G.trans hp fun e =>
      pres_bind G.trans
        (pres_ite (preserves_of_stateId G.refl (stateId_pure _))
          (preserves_of_stateId G.refl stateId_pfail)) fun key_str =>
      pres_bind G.trans (pres_parse_byte_stream G) fun k2 =>
      pres_bind G.trans (ih k2) fun rest => preserves_of_stateId G.refl (stateId_pure _)

theorem pres_objectDynamicLoop {P : AMF3Decoder → AMF3Decoder → Prop} (G : PGood0 P)
    {pse : PRm Value} (hp : PreservesP P pse) (fuel : Nat) :
    ∀ attr, PreservesP P (objectDynamicLoop pse fuel attr) := by
  induction fuel with
  | zero => exact fun attr => preserves_of_stateId G.refl stateId_pfail
  | succ k ih =>
    intro attr
    show PreservesP P (objectDynamicLoop pse (k + 1) attr)
    unfold objectDynamicLoop
    refine pres_ite (preserves_of_stateId G.refl (stateId_pure _)) ?_
    exact pres_bind G.trans
        (pres_ite (preserves_of_stateId G.refl (stateId_pure _))
          (preserves_of_stateId G.refl stateId_pfail)) fun attr_str =>
      pres_bind G.trans hp fun val =>
      pres_bind G.trans (pres_parse_byte_stream G) fun attr2 =>
      pres_bind G.trans (ih attr2) fun rest => preserves_of_stateId G.refl (stateId_pure _)

theorem pres_parse_object_static_loop {P : AMF3Decoder → AMF3Decoder → Prop} (G : PGood0 P)
    {pse : PRm Value} (hp : PreservesP P pse) :
    ∀ names, PreservesP P (parse_object_static_loop pse names) := by
  intro names
  induction names with
  | nil => exact preserves_of_stateId G.refl (stateId_pure _)
  | cons name rest ih =>
    show PreservesP P (parse_object_static_loop pse (name :: rest))
    unfold parse_object_static_loop
    exact pres_bind G.trans hp fun e =>
      pres_bind G.trans ih fun es => preserves_of_stateId G.refl (stateId_pure _)

theorem pres_parse_object_static {P : AMF3Decoder → AMF3Decoder → Prop} (G : PGood0 P)
    {pse : PRm Value} (hp : PreservesP P pse) (cd : ClassDefinition) :
    PreservesP P (parse_object_static pse cd) :=
  pres_parse_object_static_loop G hp cd.static_properties

theorem pres_parse_element_object_elems {P : AMF3Decoder → AMF3Decoder → Prop} (G : PGood0 P)
    {pse : PRm Value} (hp : PreservesP P pse) (fuel : Nat) (cd : ClassDefinition) :
    PreservesP P (parse_element_object_elems pse fuel cd) := by
  unfold parse_element_object_elems
  refine pres_bind G.trans ?_ fun pre =>
    pres_bind G.trans
      (pres_ite (pres_parse_object_static G hp cd)
        (preserves_of_stateId G.refl (stateId_pure _))) fun post =>
    preserves_of_stateId G.refl (stateId_pure _)
  refine pres_ite ?_ (preserves_of_stateId G.refl (stateId_pure _))
  exact pres_bind G.trans (pres_parse_object_static G hp cd) fun x =>
    pres_bind G.trans (pres_parse_byte_stream G) fun attr =>
    pres_bind G.trans (pres_objectDynamicLoop G hp fuel attr) fun dyns =>
    preserves_of_stateId G.refl (stateId_pure _)

theorem patchClassDef_pres {P : AMF3Decoder → AMF3Decoder → Prop} {reg : Registry}
    (G : PGood P reg) {st : AMF3Decoder} {idx : Nat} {cd : ClassDefinition}
    {stB : AMF3Decoder} (h : patchClassDef st idx cd = some stB) : P st stB := by
  unfold patchClassDef at h
  cases hg : st.object_reference_table[idx]? with
  | none => rw [hg] at h; cases h
  | some slot =>
    simp only [hg] at h
    split at h
    · cases h
    · split at h
      · cases h
        exact G.set st idx _
      · cases h
        exact G.refl st

theorem patchElements_pres {P : AMF3Decoder → AMF3Decoder → Prop} {reg : Registry}
    (G : PGood P reg) {st : AMF3Decoder} {idx : Nat} {elements : List Element}
    {stB : AMF3Decoder} (h : patchElements st idx elements = some stB) : P st stB := by
  unfold patchElements at h
  cases hg : st.object_reference_table[idx]? with
  | none => rw [hg] at h; cases h
  | some slot =>
    simp only [hg] at h
    split at h
    · cases h
    · split at h
      · cases h
        exact G.set st idx _
      · cases h
        exact G.refl st

theorem pres_parse_reference_or_val {P : AMF3Decoder → AMF3Decoder → Prop} {reg : Registry}
    (G : PGood P reg) {parser : Nat → PRm Value}
    (hp : ∀ len, PreservesP P (parser len)) :
    PreservesP P (parse_reference_or_val parser) := by
  intro st i st' h
  unfold parse_reference_or_val at h
  cases hr : read_length i with
  | none =>
    simp only [hr, PR.stateOf] at h
    cases h
    exact G.refl st
  | some t =>
    obtain ⟨i1, l⟩ := t
    cases l with
    | Reference index =>
      simp only [hr] at h
      cases hg : st.object_reference_table[index]? with
      | none =>
        simp only [hg, PR.stateOf] at h
        cases h
        exact G.refl st
      | some slot =>
        simp only [hg, PR.stateOf] at h
        cases h
        exact G.bump st index
    | Size len =>
      simp only [hr] at h
      cases hp2 : parser len { st with
          object_reference_table := st.object_reference_table ++ [⟨Value.Null, 0⟩],
          inlineCount := st.inlineCount + 1 } i1 with
      | err st2 =>
        simp only [hp2, PR.stateOf] at h
        cases h
        exact G.trans _ _ _ (G.reserve st _) (hp len _ i1 st' (by rw [hp2]; rfl))
      | panic =>
        simp only [hp2, PR.stateOf] at h
        exact Option.noConfusion h
      | ok st2 i2 res =>
        simp only [hp2] at h
        cases hg : st2.object_reference_table[st.object_reference_table.length]? with
        | none =>
          simp only [hg, PR.stateOf] at h
          exact Option.noConfusion h
        | some slot =>
          simp only [hg] at h
          split at h
          · simp only [PR.stateOf] at h
            exact Option.noConfusion h
          · simp only [PR.stateOf] at h
            cases h
            refine G.trans _ _ _ (G.reserve st ⟨Value.Null, 0⟩) ?_
            refine G.trans _ _ _ (hp len _ i1 st2 (by rw [hp2]; rfl)) ?_
            exact G.trans _ _ _ (G.set st2 _ ⟨res, 0⟩) (G.bump _ _)

theorem pres_parse_element_object {P : AMF3Decoder → AMF3Decoder → Prop} {reg : Registry}
    (G : PGood P reg) {pse : PRm Value} (hp : PreservesP P pse) (fuel : Nat) :
    PreservesP P (parse_element_object reg pse fuel) := by
  intro st i st' h
  unfold parse_element_object at h
  cases hr : read_int i with
  | none =>
    simp only [hr, PR.stateOf] at h
    cases h
    exact G.refl st
  | some t =>
    obtain ⟨i1, length⟩ := t
    simp only [hr] at h
    by_cases hrf : length &&& REFERENCE_FLAG = 0
    · rw [if_pos hrf] at h
      cases hg : st.object_reference_table[length >>> 1]? with
      | none =>
        simp only [hg, PR.stateOf] at h
        cases h
        exact G.refl st
      | some slot =>
        simp only [hg, PR.stateOf] at h
        cases h
        exact G.bump st _
    · rw [if_neg hrf] at h
      cases hcd : parse_class_def (length >>> 1) { st with
          object_reference_table := st.object_reference_table ++ [⟨Value.Object [] none, 0⟩],
          inlineCount := st.inlineCount + 1 } i1 with
      | err st2 =>
        simp only [hcd, PR.stateOf] at h
        cases h
        exact G.trans _ _ _ (G.reserve st _)
          (pres_parse_class_def G.toPGood0 _ _ i1 st' (by rw [hcd]; rfl))
      | panic =>
        simp only [hcd, PR.stateOf] at h
        exact Option.noConfusion h
      | ok st2 i2 cd =>
        simp only [hcd] at h
        have hst2 : P st st2 :=
          G.trans _ _ _ (G.reserve st _)
            (pres_parse_class_def G.toPGood0 _ _ i1 st2 (by rw [hcd]; rfl))
        cases hpat : patchClassDef st2 st.object_reference_table.length cd with
        | none =>
          simp only [hpat, PR.stateOf] at h
          exact Option.noConfusion h
        | some stB =>
          simp only [hpat] at h
          have hstB : P st stB := G.trans _ _ _ hst2 (patchClassDef_pres G hpat)
          by_cases hext : cd.attributes.attrExternal = true
          · rw [if_pos hext] at h
            cases hlook : lookupFn reg cd.name with
            | some decoder =>
              simp only [hlook] at h
              cases hd : decoder stB i2 with
              | err st3 =>
                simp only [hd, PR.stateOf] at h
                cases h
                exact G.trans _ _ _ hstB (G.ext _ _ hlook stB i2 st' (by rw [hd]; rfl))
              | panic =>
                simp only [hd, PR.stateOf] at h
                exact Option.noConfusion h
              | ok st3 i3 elems =>
                simp only [hd, PR.stateOf] at h
                cases h
                exact G.trans _ _ _ hstB (G.ext _ _ hlook stB i2 st' (by rw [hd]; rfl))
            | none =>
              simp only [hlook, PR.stateOf] at h
              cases h
              exact hstB
          · rw [if_neg hext] at h
            cases hb : parse_element_object_elems pse fuel cd stB i2 with
            | err st3 =>
              simp only [hb, PR.stateOf] at h
              cases h
              exact G.trans _ _ _ hstB
                (pres_parse_element_object_elems G.toPGood0 hp fuel cd stB i2 st'
                  (by rw [hb]; rfl))
            | panic =>
              simp only [hb, PR.stateOf] at h
              exact Option.noConfusion h
            | ok st3 i3 elements =>
              simp only [hb] at h
              have hst3 : P st st3 := G.trans _ _ _ hstB
                (pres_parse_element_object_elems G.toPGood0 hp fuel cd stB i2 st3
                  (by rw [hb]; rfl))
              cases hpe : patchElements st3 st.object_reference_table.length elements with
              | none =>
                simp only [hpe, PR.stateOf] at h
                exact Option.noConfusion h
              | some stC =>
                simp only [hpe] at h
                have hstC : P st stC := G.trans _ _ _ hst3 (patchElements_pres G hpe)
                cases hg2 : stC.object_reference_table[st.object_reference_table.length]? with
                | none =>
                  simp only [hg2, PR.stateOf] at h
                  exact Option.noConfusion h
                | some slot =>
                  simp only [hg2, PR.stateOf] at h
                  cases h
                  exact G.trans _ _ _ hstC (G.bump stC _)

theorem stateId_ite {c : Prop} [Decidable c] {α : Type} {m1 m2 : PRm α}
    (h1 : stateId m1) (h2 : stateId m2) : stateId (if c then m1 else m2) := by
  intro st i st' h
  by_cases hc : c
  · rw [if_pos hc] at h
    exact h1 st i st' h
  · rw [if_neg hc] at h
    exact h2 st i st' h

theorem stateId_manyN {α : Type} {p : PRm α} (hp : stateId p) (n : Nat) :
    stateId (manyN n p) := by
  induction n with
  | zero => exact stateId_pure []
  | succ k ih =>
    show stateId (manyN (k + 1) p)
    unfold manyN
    exact stateId_bind hp fun x => stateId_bind ih fun xs => stateId_pure _

theorem stateId_be_u32 : stateId be_u32 := stateId_beBytes 4

theorem stateId_be_i32 : stateId be_i32 :=
  stateId_bind (stateId_beBytes 4) fun v => stateId_pure _

theorem stateId_be_f64 : stateId be_f64 := stateId_beBytes 8

theorem pres_parse_element_string {P : AMF3Decoder → AMF3Decoder → Prop} (G : PGood0 P) :
    PreservesP P parse_element_string := by
  unfold parse_element_string
  exact pres_bind G.trans (pres_parse_string G) fun s =>
    preserves_of_stateId G.refl (stateId_pure _)

theorem pres_parse_element_xml {P : AMF3Decoder → AMF3Decoder → Prop} {reg : Registry}
    (G : PGood P reg) (string : Bool) : PreservesP P (parse_element_xml string) := by
  unfold parse_element_xml
  exact pres_parse_reference_or_val G fun len =>
    preserves_of_stateId G.refl
      (stateId_bind (stateId_takeBytes len) fun bytes =>
        stateId_bind (stateId_ite (stateId_pure _) stateId_pfail) fun data => stateId_pure _)

theorem pres_parse_element_date {P : AMF3Decoder → AMF3Decoder → Prop} {reg : Registry}
    (G : PGood P reg) : PreservesP P parse_element_date := by
  unfold parse_element_date
  exact pres_parse_reference_or_val G fun len =>
    preserves_of_stateId G.refl (stateId_bind stateId_be_f64 fun ms => stateId_pure _)

theorem pres_parse_element_byte_array {P : AMF3Decoder → AMF3Decoder → Prop} {reg : Registry}
    (G : PGood P reg) : PreservesP P parse_element_byte_array := by
  unfold parse_element_byte_array
  exact pres_parse_reference_or_val G fun len =>
    preserves_of_stateId G.refl
      (stateId_bind (stateId_takeBytes len) fun bytes => stateId_pure _)

theorem pres_parse_element_vector_int {P : AMF3Decoder → AMF3Decoder → Prop} {reg : Registry}
    (G : PGood P reg) : PreservesP P parse_element_vector_int := by
  unfold parse_element_vector_int
  exact pres_parse_reference_or_val G fun len =>
    preserves_of_stateId G.refl
      (stateId_bind (stateId_oversizeGuard _) fun u =>
        stateId_bind stateId_be_u8 fun fl =>
          stateId_bind (stateId_manyN stateId_be_i32 len) fun xs => stateId_pure _)

theorem pres_parse_element_vector_uint {P : AMF3Decoder → AMF3Decoder → Prop} {reg : Registry}
    (G : PGood P reg) : PreservesP P parse_element_vector_uint := by
  unfold parse_element_vector_uint
  exact pres_parse_reference_or_val G fun len =>
    preserves_of_stateId G.refl
      (stateId_bind (stateId_oversizeGuard _) fun u =>
        stateId_bind stateId_be_u8 fun fl =>
          stateId_bind (stateId_manyN stateId_be_u32 len) fun xs => stateId_pure _)

theorem pres_parse_element_vector_double {P : AMF3Decoder → AMF3Decoder → Prop}
    {reg : Registry} (G : PGood P reg) : PreservesP P parse_element_vector_double := by
  unfold parse_element_vector_double
  exact pres_parse_reference_or_val G fun len =>
    preserves_of_stateId G.refl
      (stateId_bind (stateId_oversizeGuard _) fun u =>
        stateId_bind stateId_be_u8 fun fl =>
          stateId_bind (stateId_manyN stateId_be_f64 len) fun xs => stateId_pure _)

theorem pres_parse_element_object_vector {P : AMF3Decoder → AMF3Decoder → Prop}
    {reg : Registry} (G : PGood P reg) {pse : PRm Value} (hp : PreservesP P pse) :
    PreservesP P (parse_element_object_vector pse) := by
  unfold parse_element_object_vector
  exact pres_parse_reference_or_val G fun len =>
    pres_bind G.trans (preserves_of_stateId G.refl stateId_be_u8) fun fl =>
      pres_bind G.trans (pres_parse_string G.toPGood0) fun name =>
        pres_bind G.trans (pres_manyN G.toPGood0 hp len) fun elems =>
          preserves_of_stateId G.refl (stateId_pure _)

theorem pres_parse_element_dict {P : AMF3Decoder → AMF3Decoder → Prop} {reg : Registry}
    (G : PGood P reg) {pse : PRm Value} (hp : PreservesP P pse) :
    PreservesP P (parse_element_dict pse) := by
  unfold parse_element_dict
  exact pres_parse_reference_or_val G fun len =>
    pres_bind G.trans (preserves_of_stateId G.refl stateId_be_u8) fun wk =>
      pres_bind G.trans (preserves_of_stateId G.refl (stateId_oversizeGuard _)) fun u =>
        pres_bind G.trans (pres_manyN G.toPGood0 hp _) fun pairs =>
          preserves_of_stateId G.refl (stateId_pure _)

theorem pres_parse_element_array {P : AMF3Decoder → AMF3Decoder → Prop} {reg : Registry}
    (G : PGood P reg) {pse : PRm Value} (hp : PreservesP P pse) (fuel : Nat) :
    PreservesP P (parse_element_array pse fuel) := by
  unfold parse_element_array
  refine pres_parse_reference_or_val G fun len => ?_
  unfold parse_element_array_body
  exact pres_bind G.trans (preserves_of_stateId G.refl (stateId_oversizeGuard _)) fun u =>
    pres_bind G.trans (pres_parse_byte_stream G.toPGood0) fun key =>
      pres_ite
        (pres_bind G.trans (pres_manyN G.toPGood0 hp len) fun elements =>
          preserves_of_stateId G.refl (stateId_pure _))
        (pres_bind G.trans (pres_arrayAssocLoop G.toPGood0 hp fuel key) fun elements =>
          pres_bind G.trans (pres_manyN G.toPGood0 hp len) fun el =>
            preserves_of_stateId G.refl (stateId_pure _))

theorem pres_parse_single_element {P : AMF3Decoder → AMF3Decoder → Prop} {reg : Registry}
    (G : PGood P reg) : ∀ fuel, PreservesP P (parse_single_element reg fuel) := by
  intro fuel
  induction fuel with
  | zero => exact preserves_of_stateId G.refl stateId_pfail
  | succ k ih =>
    show PreservesP P (parse_single_element reg (k + 1))
    unfold parse_single_element
    refine pres_bind G.trans (preserves_of_stateId G.refl stateId_be_u8) ?_
    intro marker
    cases hm : typeMarkerOfByte marker with
    | none =>
      simp only [hm]
      exact preserves_of_stateId G.refl stateId_pfail
    | some tm =>
      cases tm
      all_goals simp only [hm]
      case Undefined => exact preserves_of_stateId G.refl (stateId_pure _)
      case Null => exact preserves_of_stateId G.refl (stateId_pure _)
      case False => exact preserves_of_stateId G.refl (stateId_pure _)
      case True => exact preserves_of_stateId G.refl (stateId_pure _)
      case Integer => exact preserves_of_stateId G.refl stateId_parse_element_int
      case Number => exact preserves_of_stateId G.refl stateId_parse_element_number
      case String => exact pres_parse_element_string G.toPGood0
      case XML => exact pres_parse_element_xml G false
      case Date => exact pres_parse_element_date G
      case Array => exact pres_parse_element_array G ih k
      case Object => exact pres_parse_element_object G ih k
      case XmlString => exact pres_parse_element_xml G true
      case ByteArray => exact pres_parse_element_byte_array G
      case VectorInt => exact pres_parse_element_vector_int G
      case VectorUInt => exact pres_parse_element_vector_uint G
      case VectorDouble => exact pres_parse_element_vector_double G
      case VectorObject => exact pres_parse_element_object_vector G ih
      case Dictionary => exact pres_parse_element_dict G ih

theorem pres_parse_element {P : AMF3Decoder → AMF3Decoder → Prop} {reg : Registry}
    (G : PGood P reg) (fuel : Nat) : PreservesP P (parse_element reg fuel) := by
  unfold parse_element
  exact pres_bind G.trans (pres_parse_string G.toPGood0) fun name =>
    pres_bind G.trans (pres_parse_single_element G fuel) fun v =>
      preserves_of_stateId G.refl (stateId_pure _)

theorem pres_sepList0Loop {P : AMF3Decoder → AMF3Decoder → Prop}
    (hrefl : ∀ s, P s s) (htrans : ∀ a b c, P a b → P b c → P a c) {α : Type}
    {sep : PRm Unit} {f : PRm α} (hsep : PreservesP P sep) (hf : PreservesP P f) :
    ∀ fuel, PreservesP P (sepList0Loop sep f fuel) := by
  intro fuel
  induction fuel with
  | zero =>
    intro st i st' h
    simp only [sepList0Loop, PR.stateOf] at h
    cases h
    exact hrefl st
  | succ k ih =>
    intro st i st' h
    simp only [sepList0Loop] at h
    cases hs : sep st i with
    | err st1 =>
      simp only [hs, PR.stateOf] at h
      cases h
      exact hsep st i st' (by rw [hs]; rfl)
    | panic =>
      simp only [hs, PR.stateOf] at h
      exact Option.noConfusion h
    | ok st1 i1 u =>
      simp only [hs] at h
      have hP1 : P st st1 := hsep st i st1 (by rw [hs]; rfl)
      by_cases hlen : i1.length = i.length
      · rw [if_pos hlen] at h
        simp only [PR.stateOf] at h
        cases h
        exact hP1
      · rw [if_neg hlen] at h
        cases hff : f st1 i1 with
        | err st2 =>
          simp only [hff, PR.stateOf] at h
          cases h
          exact htrans _ _ _ hP1 (hf st1 i1 st' (by rw [hff]; rfl))
        | panic =>
          simp only [hff, PR.stateOf] at h
          exact Option.noConfusion h
        | ok st2 i2 x =>
          simp only [hff] at h
          have hP2 : P st st2 := htrans _ _ _ hP1 (hf st1 i1 st2 (by rw [hff]; rfl))
          cases hrec : sepList0Loop sep f k st2 i2 with
          | ok st3 i3 xs =>
            simp only [hrec, PR.stateOf] at h
            cases h
            exact htrans _ _ _ hP2 (ih st2 i2 st' (by rw [hrec]; rfl))
          | err st3 =>
            simp only [hrec, PR.stateOf] at h
            cases h
            exact htrans _ _ _ hP2 (ih st2 i2 st' (by rw [hrec]; rfl))
          | panic =>
            simp only [hrec, PR.stateOf] at h
            exact Option.noConfusion h

theorem pres_separated_list0 {P : AMF3Decoder → AMF3Decoder → Prop}
    (hrefl : ∀ s, P s s) (htrans : ∀ a b c, P a b → P b c → P a c) {α : Type}
    {sep : PRm Unit} {f : PRm α} (hsep : PreservesP P sep) (hf : PreservesP P f)
    (fuel : Nat) : PreservesP P (separated_list0 sep f fuel) := by
  intro st i st' h
  unfold separated_list0 at h
  cases hff : f st i with
  | err st1 =>
    simp only [hff, PR.stateOf] at h
    cases h
    exact hf st i st' (by rw [hff]; rfl)
  | panic =>
    simp only [hff, PR.stateOf] at h
    exact Option.noConfusion h
  | ok st1 i1 x =>
    simp only [hff] at h
    have hP1 : P st st1 := hf st i st1 (by rw [hff]; rfl)
    cases hrec : sepList0Loop sep f fuel st1 i1 with
    | ok st3 i3 xs =>
      simp only [hrec, PR.stateOf] at h
      cases h
      exact htrans _ _ _ hP1 (pres_sepList0Loop hrefl htrans hsep hf fuel st1 i1 st'
        (by rw [hrec]; rfl))
    | err st3 =>
      simp only [hrec, PR.stateOf] at h
      cases h
      exact htrans _ _ _ hP1 (pres_sepList0Loop hrefl htrans hsep hf fuel st1 i1 st'
        (by rw [hrec]; rfl))
    | panic =>
      simp only [hrec, PR.stateOf] at h
      exact Option.noConfusion h

theorem pres_parse_body {P : AMF3Decoder → AMF3Decoder → Prop} {reg : Registry}
    (G : PGood P reg) (fuel : Nat) : PreservesP P (parse_body reg fuel) := by
  unfold parse_body
  exact pres_bind G.trans
    (pres_separated_list0 G.refl G.trans
      (preserves_of_stateId G.refl (stateId_tagBytes _)) (pres_parse_element G fuel) fuel)
    fun elements =>
      pres_bind G.trans (preserves_of_stateId G.refl (stateId_tagBytes _)) fun u =>
        preserves_of_stateId G.refl (stateId_pure _)

theorem bumpClone_length (t : List Slot) (idx : Nat) : (bumpClone t idx).length = t.length := by
  unfold bumpClone
  split
  · rfl
  · rw [List.length_set]

theorem lookupFn_exists {reg : Registry} {name : List Nat} {f : ExternalFn}
    (h : lookupFn reg name = some f) : ∃ p ∈ reg, p.2 = f := by
  induction reg with
  | nil => cases h
  | cons q r ih =>
    obtain ⟨k, g⟩ := q
    unfold lookupFn at h
    split at h
    · cases h
      exact ⟨(k, f), by simp, rfl⟩
    · obtain ⟨p, hp, he⟩ := ih h
      exact ⟨p, by simp [hp], he⟩

theorem growsAll_refl (s : AMF3Decoder) : growsAll s s :=
  ⟨⟨[], by simp⟩, ⟨[], by simp⟩, Nat.le_refl _, rfl, fun h => h⟩

theorem growsAll_trans : ∀ a b c, growsAll a b → growsAll b c → growsAll a c := by
  intro a b c hab hbc
  obtain ⟨⟨t1, h1⟩, ⟨t2, h2⟩, h3, h4, h5⟩ := hab
  obtain ⟨⟨u1, g1⟩, ⟨u2, g2⟩, g3, g4, g5⟩ := hbc
  exact ⟨⟨t1 ++ u1, by rw [g1, h1, List.append_assoc]⟩,
    ⟨t2 ++ u2, by rw [g2, h2, List.append_assoc]⟩,
    Nat.le_trans h3 g3, by omega, fun h => g5 (h5 h)⟩

theorem growsAll_PGood {reg : Registry} (hreg : extOk reg) : PGood growsAll reg where
  refl := growsAll_refl
  trans := growsAll_trans
  pushS := by
    intro st b hb
    refine ⟨⟨[b], rfl⟩, ⟨[], by simp⟩, Nat.le_refl _, rfl, ?_⟩
    intro hok s hs
    rcases List.mem_append.mp hs with hmem | hmem
    · exact hok s hmem
    · rw [List.mem_singleton.mp hmem]
      exact hb
  pushT := fun st cd => ⟨⟨[], by simp⟩, ⟨[cd], rfl⟩, Nat.le_refl _, rfl, fun h => h⟩
  reserve := by
    intro st s
    refine ⟨⟨[], by simp⟩, ⟨[], by simp⟩, ?_, ?_, fun h => h⟩
    · simp only [List.length_append, List.length_cons, List.length_nil]
      omega
    · simp only [List.length_append, List.length_cons, List.length_nil]
      omega
  bump := by
    intro st idx
    refine ⟨⟨[], by simp⟩, ⟨[], by simp⟩, ?_, ?_, fun h => h⟩
    · rw [bumpClone_length]
    · rw [bumpClone_length]
  set := by
    intro st idx s
    refine ⟨⟨[], by simp⟩, ⟨[], by simp⟩, ?_, ?_, fun h => h⟩
    · rw [List.length_set]
    · rw [List.length_set]
  ext := by
    intro name f hlook st i st' h
    obtain ⟨p, hp, he⟩ := lookupFn_exists hlook
    exact hreg p hp st i st' (by rw [he]; exact h)

/-- C9: the decoder never rolls back on error: on every non-panicking
outcome (success or error) of `parse_single_element` or `parse_body`, the
string and trait reference tables of the entry state are prefixes of the
result state's tables, and the object-reference table never shrinks — in
particular placeholder slots reserved before a failed payload, and strings
and traits interned while parsing the failed subtree, remain in the
tables when the error is returned. -/
theorem c9_tables_never_roll_back (reg : Registry) (hreg : extOk reg) (fuel : Nat)
    (st : AMF3Decoder) (i : List Nat) (st' : AMF3Decoder)
    (h : (parse_single_element reg fuel st i).stateOf = some st' ∨
      (parse_body reg fuel st i).stateOf = some st') :
    (∃ t, st'.string_reference_table = st.string_reference_table ++ t) ∧
    (∃ t, st'.trait_reference_table = st.trait_reference_table ++ t) ∧
    st.object_reference_table.length ≤ st'.object_reference_table.length := by
  have hg : growsAll st st' := by
    rcases h with h | h
    · exact pres_parse_single_element (growsAll_PGood hreg) fuel st i st' h
    · exact pres_parse_body (growsAll_PGood hreg) fuel st i st' h
  exact ⟨hg.1, hg.2.1, hg.2.2.1⟩

/-- Witness for C9: an inline array header that reserves a slot and then
fails for lack of input; the error state keeps the reserved slot. -/
theorem c9_tables_never_roll_back_witness :
    (∃ t, (⟨[], [], [⟨Value.Null, 0⟩], 1⟩ : AMF3Decoder).string_reference_table =
      emptyDecoder.string_reference_table ++ t) ∧
    (∃ t, (⟨[], [], [⟨Value.Null, 0⟩], 1⟩ : AMF3Decoder).trait_reference_table =
      emptyDecoder.trait_reference_table ++ t) ∧
    emptyDecoder.object_reference_table.length ≤
      (⟨[], [], [⟨Value.Null, 0⟩], 1⟩ : AMF3Decoder).object_reference_table.length :=
  c9_tables_never_roll_back [] (by intro p hp; exact absurd hp (List.not_mem_nil p)) 16
    emptyDecoder [0x09, 0x03, 0x01] ⟨[], [], [⟨Value.Null, 0⟩], 1⟩ (Or.inl rfl)

/-- C6: a byte stream with wire form `Size(0)` decodes to the empty byte
string and leaves the whole decoder state (in particular the string
reference table) unchanged, while `Size(n > 0)` is the only appending
path; hence no sequence of decode operations ever puts an empty entry into
the string reference table. -/
theorem c6_empty_byte_stream_never_interned :
    (∀ (st : AMF3Decoder) (i i1 : List Nat),
      read_length i = some (i1, Length.Size 0) →
      parse_byte_stream st i = PR.ok st i1 []) ∧
    (∀ (reg : Registry), extOk reg → ∀ (fuel : Nat) (st : AMF3Decoder) (i : List Nat)
      (st' : AMF3Decoder),
      ((parse_single_element reg fuel st i).stateOf = some st' ∨
        (parse_body reg fuel st i).stateOf = some st') →
      stringsOk st → stringsOk st') := by
  constructor
  · intro st i i1 hread
    unfold parse_byte_stream
    simp only [hread]
    simp
  · intro reg hreg fuel st i st' h hok
    have hg : growsAll st st' := by
      rcases h with h | h
      · exact pres_parse_single_element (growsAll_PGood hreg) fuel st i st' h
      · exact pres_parse_body (growsAll_PGood hreg) fuel st i st' h
    exact hg.2.2.2.2 hok

/-- Witness for C6: `Size(0)` wire byte `0x01` decodes to the empty byte
string with unchanged state, and decoding an inline one-byte string leaves
a string table whose entries are all non-empty. -/
theorem c6_empty_byte_stream_never_interned_witness :
    parse_byte_stream emptyDecoder [0x01] = PR.ok emptyDecoder [] [] ∧
    stringsOk ⟨[[0x41]], [], [], 0⟩ :=
  ⟨c6_empty_byte_stream_never_interned.1 emptyDecoder [0x01] [] rfl,
    c6_empty_byte_stream_never_interned.2 [] (by intro p hp; exact absurd hp (List.not_mem_nil p))
      8 emptyDecoder [0x06, 0x03, 0x41] ⟨[[0x41]], [], [], 0⟩ (Or.inl rfl)
      (by intro s hs; exact absurd hs (List.not_mem_nil s))⟩

/-- C7: after any successful decode, the object-reference table has grown
by exactly the number of inline complex values begun during the decode
(the ghost `inlineCount` is incremented exactly when parse_reference_or_val
or parse_element_object takes its inline branch, and those are the only
places a slot is appended; reference-form occurrences append none). -/
theorem c7_object_table_growth_matches_inline_count (reg : Registry) (hreg : extOk reg)
    (fuel : Nat) (st : AMF3Decoder) (i : List Nat) (st' : AMF3Decoder) (rest : List Nat)
    (v : Value) (h : parse_single_element reg fuel st i = PR.ok st' rest v) :
    st'.object_reference_table.length + st.inlineCount =
      st.object_reference_table.length + st'.inlineCount := by
  have hg : growsAll st st' :=
    pres_parse_single_element (growsAll_PGood hreg) fuel st i st' (by rw [h]; rfl)
  exact hg.2.2.2.1

/-- Witness for C7: decoding `[0x09,0x03,0x01,0x01]` (inline array of one
`Null`) appends exactly one slot and counts exactly one inline complex
value. -/
theorem c7_object_table_growth_matches_inline_count_witness :
    (AMF3Decoder.object_reference_table
        ⟨[], [], [⟨Value.StrictArray [Value.Null], 1⟩], 1⟩).length +
      emptyDecoder.inlineCount =
    emptyDecoder.object_reference_table.length +
      AMF3Decoder.inlineCount ⟨[], [], [⟨Value.StrictArray [Value.Null], 1⟩], 1⟩ :=
  c7_object_table_growth_matches_inline_count []
    (by intro p hp; exact absurd hp (List.not_mem_nil p)) 16 emptyDecoder
    [0x09, 0x03, 0x01, 0x01] ⟨[], [], [⟨Value.StrictArray [Value.Null], 1⟩], 1⟩ []
    (Value.StrictArray [Value.Null]) rfl

theorem objEq_PGood0 : PGood0 objEq where
  refl := fun s => ⟨rfl, rfl⟩
  trans := fun a b c h1 h2 => ⟨h2.1.trans h1.1, h2.2.trans h1.2⟩
  pushS := fun st b hb => ⟨rfl, rfl⟩
  pushT := fun st cd => ⟨rfl, rfl⟩

/-- C3 (amended): on the inline external path with a registered decoder,
`parse_element_object` returns a fresh `Custom(elems, [], Some(trait))`
value and the external decoder's post-state unchanged — it performs no
second patch, so the reserved slot, which holds `Object([], Some(trait))`
when the external decoder receives control, is never replaced by the
`Custom` value. -/
theorem c3_amended_custom_fresh_slot_kept (reg : Registry) (pse : PRm Value) (fuel : Nat)
    (st st2 stB st3 : AMF3Decoder) (i i1 i2 i3 : List Nat) (length : Nat)
    (cd : ClassDefinition) (f : ExternalFn) (elems : List Element)
    (hread : read_int i = some (i1, length))
    (hflag : ¬ length &&& REFERENCE_FLAG = 0)
    (hcd : parse_class_def (length >>> 1) { st with
      object_reference_table := st.object_reference_table ++ [⟨Value.Object [] none, 0⟩],
      inlineCount := st.inlineCount + 1 } i1 = PR.ok st2 i2 cd)
    (hpat : patchClassDef st2 st.object_reference_table.length cd = some stB)
    (hext : cd.attributes.attrExternal = true)
    (hlook : lookupFn reg cd.name = some f)
    (hf : f stB i2 = PR.ok st3 i3 elems) :
    parse_element_object reg pse fuel st i = PR.ok st3 i3 (Value.Custom elems [] (some cd)) ∧
    stB.object_reference_table[st.object_reference_table.length]? =
      some ⟨Value.Object [] (some cd), 0⟩ := by
  constructor
  · simp only [parse_element_object, hread]
    rw [if_neg hflag]
    simp only [hcd, hpat]
    rw [if_pos hext]
    simp only [hlook, hf]
  · have hobj := pres_parse_class_def objEq_PGood0 (length >>> 1) _ i1 st2 (by rw [hcd]; rfl)
    obtain ⟨ho, -⟩ := hobj
    have hidx : st2.object_reference_table[st.object_reference_table.length]? =
        some ⟨Value.Object [] none, 0⟩ := by
      rw [ho]
      exact List.getElem?_concat_length _ _
    unfold patchClassDef at hpat
    simp only [hidx] at hpat
    simp at hpat
    rw [← hpat]
    exact List.getElem?_set_self (by rw [ho]; simp)

/-- Witness for C3 (amended) at spec scenario 4: the externalizable object
`0A 07 03 45` with the decoder registered for `"E"`. -/
theorem c3_amended_custom_fresh_slot_kept_witness :
    parse_element_object regE (parse_single_element regE 15) 15 emptyDecoder
      [0x07, 0x03, 0x45] =
      PR.ok ⟨[[0x45]], [cdE], [⟨Value.Object [] (some cdE), 0⟩], 1⟩ []
        (Value.Custom [] [] (some cdE)) ∧
    (AMF3Decoder.object_reference_table
      ⟨[[0x45]], [cdE], [⟨Value.Object [] (some cdE), 0⟩], 1⟩)[(0 : Nat)]? =
      some ⟨Value.Object [] (some cdE), 0⟩ :=
  c3_amended_custom_fresh_slot_kept regE (parse_single_element regE 15) 15 emptyDecoder
    ⟨[[0x45]], [cdE], [⟨Value.Object [] none, 0⟩], 1⟩
    ⟨[[0x45]], [cdE], [⟨Value.Object [] (some cdE), 0⟩], 1⟩
    ⟨[[0x45]], [cdE], [⟨Value.Object [] (some cdE), 0⟩], 1⟩
    [0x07, 0x03, 0x45] [0x03, 0x45] [] [] 7 cdE (fun st i => PR.ok st i []) []
    rfl (by decide) rfl rfl rfl rfl rfl

end FlashLso
